import Mathlib

/-!
Shallow embedding of the Intcode virtual machine from
`src/aoc-2019-19/src/computer.rs` (the final, most capable form of the
machine, per the specification).

Rust `i64` arithmetic is modelled with `Int`; the puzzle values never
approach `2^63`, and the machine performs no wrapping arithmetic, so the
unbounded integers are a faithful model.  Rust's `%` and `/` on signed
integers truncate toward zero, so they are modelled with `Int.tmod` and
`Int.tdiv`.  A Rust `panic!`/failed `assert!` (a fatal, unrecoverable
fault) is modelled by returning `Except.error` carrying a `Fault` value;
`VecDeque` front/back queues are modelled by `List` (front = head).
-/

/-- Operation code constants, from `computer.rs` lines 8-17. -/
def OP_ADD : Int := 1

def OP_MUL : Int := 2

def OP_STORE_INPUT : Int := 3

def OP_WRITE_OUTPUT : Int := 4

def OP_JUMP_IF_TRUE : Int := 5

def OP_JUMP_IF_FALSE : Int := 6

def OP_LESS_THAN : Int := 7

def OP_EQUALS : Int := 8

def OP_ADJUST_RELATIVE_BASE : Int := 9

def OP_HALT : Int := 99

def OP_PARAMETER_BASE : Int := 10

def OP_PARAMETER_BASE_POS : Nat := 3

def PARAM_TYPE_POSITION : Int := 0

def PARAM_TYPE_IMMEDIATE : Int := 1

def PARAM_TYPE_RELATIVE : Int := 2

/-- Addressing-mode tagged parameter (`enum Parameter`). -/
inductive Parameter
  | Position : Int → Parameter
  | Immediate : Int → Parameter
  | Relative : Int → Parameter
deriving DecidableEq, Repr

/-- Decoded instruction (`enum Op`). -/
inductive Op
  | Add : Parameter → Parameter → Parameter → Op
  | Mul : Parameter → Parameter → Parameter → Op
  | StoreInput : Parameter → Op
  | WriteOutput : Parameter → Op
  | JumpIfTrue : Parameter → Parameter → Op
  | JumpIfFalse : Parameter → Parameter → Op
  | LessThan : Parameter → Parameter → Parameter → Op
  | Equals : Parameter → Parameter → Parameter → Op
  | AdjustRelativeBase : Parameter → Op
  | Halt : Op
deriving DecidableEq, Repr

/-- Machine state (`enum ComputerState`).  `Initial` is the spec's
`NotStarted`. -/
inductive ComputerState
  | Initial
  | Running
  | Halted
  | AwaitingInput
deriving DecidableEq, Repr

/-- A fatal fault: in the Rust source each of these aborts the whole run
(via `panic!` or a failed assertion).  The constructors carry the value
printed by the corresponding Rust diagnostic. -/
inductive Fault
  | negativeAddress : Int → Fault
  | growOnEmptyMemory : Fault
  | immediateWriteTarget : Fault
  | unknownParamType : Int → Fault
  | unknownOpcode : Int → Fault
  | noOpLoaded : Fault
  | assertionFailed : Fault
deriving DecidableEq, Repr

/-- The machine (`struct Computer`).  `inputs` and `outputs` are FIFO
queues with the front at the list head. -/
structure Computer where
  memory : List Int
  ip : Int
  state : ComputerState
  inputs : List Int
  outputs : List Int
  op : Option Op
  relative_base : Int
deriving DecidableEq, Repr

/-- Opcode extraction (`OpDecoder::opcode`):
`self.0 % OP_PARAMETER_BASE.pow(OP_PARAMETER_BASE_POS - 1)`, i.e.
the word modulo 100 with Rust's truncating remainder. -/
def OpDecoder.opcode (w : Int) : Int :=
  w.tmod (OP_PARAMETER_BASE ^ (OP_PARAMETER_BASE_POS - 1))

/-- Parameter-mode extraction (`OpDecoder::param_type`):
`self.0 % 10^(argno+3) / 10^(argno+2)` with truncating operators. -/
def OpDecoder.param_type (w : Int) (argno : Nat) : Int :=
  (w.tmod (OP_PARAMETER_BASE ^ (argno + OP_PARAMETER_BASE_POS))).tdiv
    (OP_PARAMETER_BASE ^ (argno + OP_PARAMETER_BASE_POS - 1))

/-- Constructor (`Computer::new`). -/
def Computer.new (memory : List Int) : Computer :=
  { memory := memory
    inputs := []
    ip := 0
    state := ComputerState.Initial
    outputs := []
    op := none
    relative_base := 0 }

/-- Memory read (`Computer::read`): asserts `p >= 0`; in-range reads
return the stored value, out-of-range reads return 0. -/
def Computer.read (c : Computer) (p : Int) : Except Fault Int :=
  if p < 0 then .error (.negativeAddress p)
  else .ok (c.memory.getD p.toNat 0)

/-- Memory write (`Computer::write`): asserts `p >= 0`, then grows the
backing storage with zero-fill while `memory.len() - 1 < p`, then stores.
When the backing vector is empty the Rust loop condition computes
`0usize - 1`, which is an arithmetic-overflow abort in a debug build (and
in a release build the wrapped comparison skips the growth and the
subsequent `get_mut(..).unwrap()` aborts), so the empty case is a fault. -/
def Computer.write (c : Computer) (p n : Int) : Except Fault Computer :=
  if p < 0 then .error (.negativeAddress p)
  else if c.memory.length = 0 then .error .growOnEmptyMemory
  else
    .ok { c with memory :=
      (c.memory ++ List.replicate (p.toNat + 1 - c.memory.length) 0).set p.toNat n }

/-- Parameter dereference (`Computer::deref`). -/
def Computer.deref (c : Computer) (param : Parameter) : Except Fault Int :=
  match param with
  | .Position p => c.read p
  | .Immediate n => .ok n
  | .Relative offset => c.read (c.relative_base + offset)

/-- Relative-base adjustment (`Computer::adjust_relative_base`). -/
def Computer.adjust_relative_base (c : Computer) (pa : Parameter) : Except Fault Computer :=
  match c.deref pa with
  | .error f => .error f
  | .ok a => .ok { c with relative_base := c.relative_base + a }

/-- Three-parameter arithmetic/comparison step (`Computer::binary_op`):
dereference the first two parameters, combine with `f`, store at the
address named by the third; an `Immediate` third parameter aborts. -/
def Computer.binary_op (c : Computer) (pa pb pc : Parameter)
    (f : Int → Int → Int) : Except Fault Computer :=
  match c.deref pa with
  | .error f0 => .error f0
  | .ok a =>
    match c.deref pb with
    | .error f0 => .error f0
    | .ok b =>
      match pc with
      | .Position p => c.write p (f a b)
      | .Relative o => c.write (o + c.relative_base) (f a b)
      | .Immediate _ => .error .immediateWriteTarget

/-- Queue input (`Computer::buffer_input`): push to the back. -/
def Computer.buffer_input (c : Computer) (input : Int) : Computer :=
  { c with inputs := c.inputs ++ [input] }

/-- Pop the front of the input queue (`Computer::read_input`). -/
def Computer.read_input (c : Computer) : Option Int × Computer :=
  match c.inputs with
  | [] => (none, c)
  | x :: rest => (some x, { c with inputs := rest })

/-- Store-input step (`Computer::store_input`): pop one input and write it
to the target address; block in `AwaitingInput` when the queue is empty. -/
def Computer.store_input (c : Computer) (pa : Parameter) : Except Fault Computer :=
  match c.inputs with
  | input :: rest =>
    let c1 : Computer := { c with inputs := rest }
    match pa with
    | .Position p => c1.write p input
    | .Relative o => c1.write (o + c1.relative_base) input
    | .Immediate _ => .error .immediateWriteTarget
  | [] => .ok { c with state := ComputerState.AwaitingInput }

/-- Write-output step (`Computer::write_output`): push the dereferenced
value to the back of the output queue. -/
def Computer.write_output (c : Computer) (pa : Parameter) : Except Fault Computer :=
  match c.deref pa with
  | .error f => .error f
  | .ok value => .ok { c with outputs := c.outputs ++ [value] }

/-- Conditional jump (`Computer::jump_if_true`). -/
def Computer.jump_if_true (c : Computer) (pa pb : Parameter) : Except Fault Computer :=
  match c.deref pa with
  | .error f => .error f
  | .ok cond =>
    if cond ≠ 0 then
      match c.deref pb with
      | .error f => .error f
      | .ok addr => .ok { c with ip := addr }
    else .ok c

/-- Conditional jump (`Computer::jump_if_false`). -/
def Computer.jump_if_false (c : Computer) (pa pb : Parameter) : Except Fault Computer :=
  match c.deref pa with
  | .error f => .error f
  | .ok cond =>
    if cond = 0 then
      match c.deref pb with
      | .error f => .error f
      | .ok addr => .ok { c with ip := addr }
    else .ok c

/-- Execute the loaded instruction (`Computer::execute`).  The `op` slot
is read, not cleared, so a blocked `StoreInput` can be re-executed by
`resume` without re-decoding. -/
def Computer.execute (c : Computer) : Except Fault Computer :=
  match c.op with
  | none => .error .noOpLoaded
  | some o =>
    match o with
    | .Add pa pb pc => c.binary_op pa pb pc (fun a b => a + b)
    | .Mul pa pb pc => c.binary_op pa pb pc (fun a b => a * b)
    | .StoreInput pa => c.store_input pa
    | .WriteOutput pa => c.write_output pa
    | .JumpIfTrue pa pb => c.jump_if_true pa pb
    | .JumpIfFalse pa pb => c.jump_if_false pa pb
    | .LessThan pa pb pc => c.binary_op pa pb pc (fun a b => if a < b then 1 else 0)
    | .Equals pa pb pc => c.binary_op pa pb pc (fun a b => if a = b then 1 else 0)
    | .AdjustRelativeBase pa => c.adjust_relative_base pa
    | .Halt => .ok { c with state := ComputerState.Halted }

/-- Read the word at the instruction pointer and advance it
(`Computer::read_word_and_advance`). -/
def Computer.read_word_and_advance (c : Computer) : Except Fault (Int × Computer) :=
  match c.read c.ip with
  | .error f => .error f
  | .ok n => .ok (n, { c with ip := c.ip + 1 })

/-- Read one parameter word and tag it with its addressing mode
(`Computer::read_param_and_advance`); an unrecognized mode aborts. -/
def Computer.read_param_and_advance (c : Computer) (param_type : Int) :
    Except Fault (Parameter × Computer) :=
  match c.read_word_and_advance with
  | .error f => .error f
  | .ok (value, c1) =>
    if param_type = PARAM_TYPE_POSITION then .ok (Parameter.Position value, c1)
    else if param_type = PARAM_TYPE_IMMEDIATE then .ok (Parameter.Immediate value, c1)
    else if param_type = PARAM_TYPE_RELATIVE then .ok (Parameter.Relative value, c1)
    else .error (.unknownParamType param_type)

/-- One-parameter body of the `op_read_params!` macro from
`Computer::read_next_instruction`. -/
def Computer.read_params1 (c : Computer) (w : Int) (mk : Parameter → Op) :
    Except Fault Computer :=
  match c.read_param_and_advance (OpDecoder.param_type w 0) with
  | .error f => .error f
  | .ok (pa, c1) => .ok { c1 with op := some (mk pa) }

/-- Two-parameter body of the `op_read_params!` macro. -/
def Computer.read_params2 (c : Computer) (w : Int) (mk : Parameter → Parameter → Op) :
    Except Fault Computer :=
  match c.read_param_and_advance (OpDecoder.param_type w 0) with
  | .error f => .error f
  | .ok (pa, c1) =>
    match c1.read_param_and_advance (OpDecoder.param_type w 1) with
    | .error f => .error f
    | .ok (pb, c2) => .ok { c2 with op := some (mk pa pb) }

/-- Three-parameter body of the `op_read_params!` macro. -/
def Computer.read_params3 (c : Computer) (w : Int)
    (mk : Parameter → Parameter → Parameter → Op) : Except Fault Computer :=
  match c.read_param_and_advance (OpDecoder.param_type w 0) with
  | .error f => .error f
  | .ok (pa, c1) =>
    match c1.read_param_and_advance (OpDecoder.param_type w 1) with
    | .error f => .error f
    | .ok (pb, c2) =>
      match c2.read_param_and_advance (OpDecoder.param_type w 2) with
      | .error f => .error f
      | .ok (pc, c3) => .ok { c3 with op := some (mk pa pb pc) }

/-- Decode the instruction at the instruction pointer into the `op` slot
(`Computer::read_next_instruction`); an unrecognized opcode aborts. -/
def Computer.read_next_instruction (c : Computer) : Except Fault Computer :=
  match c.read_word_and_advance with
  | .error f => .error f
  | .ok (w, c1) =>
    if OpDecoder.opcode w = OP_ADD then c1.read_params3 w Op.Add
    else if OpDecoder.opcode w = OP_MUL then c1.read_params3 w Op.Mul
    else if OpDecoder.opcode w = OP_STORE_INPUT then c1.read_params1 w Op.StoreInput
    else if OpDecoder.opcode w = OP_WRITE_OUTPUT then c1.read_params1 w Op.WriteOutput
    else if OpDecoder.opcode w = OP_JUMP_IF_TRUE then c1.read_params2 w Op.JumpIfTrue
    else if OpDecoder.opcode w = OP_JUMP_IF_FALSE then c1.read_params2 w Op.JumpIfFalse
    else if OpDecoder.opcode w = OP_LESS_THAN then c1.read_params3 w Op.LessThan
    else if OpDecoder.opcode w = OP_EQUALS then c1.read_params3 w Op.Equals
    else if OpDecoder.opcode w = OP_ADJUST_RELATIVE_BASE then
      c1.read_params1 w Op.AdjustRelativeBase
    else if OpDecoder.opcode w = OP_HALT then .ok { c1 with op := some Op.Halt }
    else .error (.unknownOpcode (OpDecoder.opcode w))

/-- One iteration of the fetch-execute loop body in `Computer::compute`:
decode, then execute. -/
def Computer.step (c : Computer) : Except Fault Computer :=
  match c.read_next_instruction with
  | .error f => .error f
  | .ok c1 => c1.execute

/-- The fetch-execute loop (`Computer::compute`):
`while state == Running { read_next_instruction(); execute(); }`.
The Rust loop is partial; it is modelled with an explicit fuel bound, and
exhausted fuel returns the machine still `Running`. -/
def Computer.compute : Computer → Nat → Except Fault Computer
  | c, 0 => .ok c
  | c, fuel + 1 =>
    if c.state = ComputerState.Running then
      match c.step with
      | .error f => .error f
      | .ok c1 => c1.compute fuel
    else .ok c

/-- Pop the front of the output queue (`Computer::consume_output`). -/
def Computer.consume_output (c : Computer) : Option Int × Computer :=
  match c.outputs with
  | [] => (none, c)
  | x :: rest => (some x, { c with outputs := rest })

/-- Drain the whole output queue (`Computer::consume_output_buffer`):
swap the queue with an empty one and return the old contents. -/
def Computer.consume_output_buffer (c : Computer) : List Int × Computer :=
  (c.outputs, { c with outputs := [] })

/-- State query (`Computer::is_awaiting_input`). -/
def Computer.is_awaiting_input (c : Computer) : Bool :=
  ComputerState.AwaitingInput = c.state

/-- State query (`Computer::is_halted`). -/
def Computer.is_halted (c : Computer) : Bool :=
  ComputerState.Halted = c.state

/-- Begin execution (`Computer::start`): asserts the state is `Initial`
and the instruction pointer is 0, then runs the fetch-execute loop. -/
def Computer.start (c : Computer) (fuel : Nat) : Except Fault Computer :=
  if c.state = ComputerState.Initial then
    if c.ip = 0 then ({ c with state := ComputerState.Running }).compute fuel
    else .error .assertionFailed
  else .error .assertionFailed

/-- Continue execution after an input-starvation block (`Computer::resume`):
asserts the state is `AwaitingInput` and at least one input is queued,
re-executes the still-loaded blocked instruction without re-decoding it,
then continues the fetch-execute loop. -/
def Computer.resume (c : Computer) (fuel : Nat) : Except Fault Computer :=
  if c.state = ComputerState.AwaitingInput then
    if c.inputs.length ≠ 0 then
      match ({ c with state := ComputerState.Running }).execute with
      | .error f => .error f
      | .ok c1 => c1.compute fuel
    else .error .assertionFailed
  else .error .assertionFailed

/-- Dispatch on the current state (`Computer::start_or_resume`); any state
other than `Initial` or `AwaitingInput` aborts. -/
def Computer.start_or_resume (c : Computer) (fuel : Nat) : Except Fault Computer :=
  match c.state with
  | ComputerState.Initial => c.start fuel
  | ComputerState.AwaitingInput => c.resume fuel
  | _ => .error .assertionFailed

/-- Buffer a whole list of inputs in order, by repeated
`Computer::buffer_input`. -/
def Computer.bufferAll (c : Computer) (xs : List Int) : Computer :=
  xs.foldl Computer.buffer_input c

/-- Append `ys` to the back of the input queue; the net effect of
buffering each element of `ys` in order. -/
def Computer.addInputs (c : Computer) (ys : List Int) : Computer :=
  { c with inputs := c.inputs ++ ys }

/-! ### Generic helper lemmas about the fetch-execute loop -/

/-- The fetch-execute loop runs only while the state is `Running`; from
any other state it returns the machine unchanged, whatever the fuel. -/
theorem Computer.compute_of_not_running (c : Computer) (n : Nat)
    (h : c.state ≠ ComputerState.Running) : c.compute n = .ok c := by
  cases n with
  | zero => rfl
  | succ m => simp [Computer.compute, h]

/-- Unfolding equation for one loop iteration from a `Running` machine. -/
theorem Computer.compute_succ_of_running (c : Computer) (n : Nat)
    (h : c.state = ComputerState.Running) :
    c.compute (n + 1) =
      match c.step with
      | .error f => .error f
      | .ok c1 => c1.compute n := by
  simp [Computer.compute, h]

/-! ### C8: draining output never affects machine state -/

/-- C8: `consume_output` pops and returns the front of the output queue
(or `none` when it is empty) and `consume_output_buffer` returns the whole
queue and resets it to empty; both leave memory, the instruction pointer,
the machine state, the relative base, the input queue, and the pending
operation unchanged; a second immediate drain returns the empty sequence,
and outputs appended between two drains appear exactly in the second
drain. -/
theorem claim8_output_drains :
    (∀ c : Computer,
      c.consume_output = (c.outputs.head?, { c with outputs := c.outputs.tail })) ∧
    (∀ c : Computer,
      c.consume_output_buffer = (c.outputs, { c with outputs := [] })) ∧
    (∀ c : Computer,
      (c.consume_output).2.memory = c.memory ∧ (c.consume_output).2.ip = c.ip ∧
      (c.consume_output).2.state = c.state ∧
      (c.consume_output).2.relative_base = c.relative_base ∧
      (c.consume_output).2.inputs = c.inputs ∧ (c.consume_output).2.op = c.op) ∧
    (∀ c : Computer,
      (c.consume_output_buffer).2.memory = c.memory ∧
      (c.consume_output_buffer).2.ip = c.ip ∧
      (c.consume_output_buffer).2.state = c.state ∧
      (c.consume_output_buffer).2.relative_base = c.relative_base ∧
      (c.consume_output_buffer).2.inputs = c.inputs ∧
      (c.consume_output_buffer).2.op = c.op) ∧
    (∀ c : Computer, ((c.consume_output_buffer).2.consume_output_buffer).1 = []) ∧
    (∀ (c : Computer) (vs : List Int),
      (({ (c.consume_output_buffer).2 with
          outputs := (c.consume_output_buffer).2.outputs ++ vs
        }).consume_output_buffer).1 = vs) := by
  refine ⟨?_, fun c => rfl, ?_, fun c => ⟨rfl, rfl, rfl, rfl, rfl, rfl⟩,
    fun c => rfl, fun c vs => rfl⟩
  · intro c
    obtain ⟨mem, ip, st, ins, outs, op, rb⟩ := c
    cases outs <;> simp [Computer.consume_output]
  · intro c
    obtain ⟨mem, ip, st, ins, outs, op, rb⟩ := c
    cases outs <;> simp [Computer.consume_output]

/-! ### C5: store-input semantics and the starvation transition -/

/-- C5: when `StoreInput` executes with a non-empty input queue, exactly
one value is popped from the front and written to the target address
(`Position` or `Relative` only; an `Immediate` target is a fatal fault);
with an empty queue the state becomes `AwaitingInput` and the loop stops
with memory, outputs, relative base, instruction pointer and the pending
operation all unchanged. -/
theorem claim5_store_input :
    (∀ (c : Computer) (x : Int) (rest : List Int) (p : Int),
      c.inputs = x :: rest →
      c.store_input (.Position p) = ({ c with inputs := rest }).write p x) ∧
    (∀ (c : Computer) (x : Int) (rest : List Int) (o : Int),
      c.inputs = x :: rest →
      c.store_input (.Relative o) =
        ({ c with inputs := rest }).write (o + c.relative_base) x) ∧
    (∀ (c : Computer) (x : Int) (rest : List Int) (n : Int),
      c.inputs = x :: rest →
      c.store_input (.Immediate n) = .error .immediateWriteTarget) ∧
    (∀ (c : Computer) (pa : Parameter),
      c.inputs = [] →
      c.store_input pa = .ok { c with state := ComputerState.AwaitingInput }) ∧
    (∀ (c : Computer) (n : Nat),
      c.state = ComputerState.AwaitingInput → c.compute n = .ok c) := by
  refine ⟨?_, ?_, ?_, ?_, ?_⟩
  · intro c x rest p h; simp [Computer.store_input, h]
  · intro c x rest o h; simp [Computer.store_input, h]
  · intro c x rest n h; simp [Computer.store_input, h]
  · intro c pa h; simp [Computer.store_input, h]
  · intro c n h
    exact c.compute_of_not_running n (by simp [h])

/-- Concrete machine used to witness C5. -/
def c5wMachine : Computer :=
  { Computer.new [3, 0, 99] with
    state := ComputerState.Running
    inputs := [7]
    op := some (.StoreInput (.Position 0)) }

/-- Witness for C5 at a concrete machine: one buffered input 7 is popped
and written to address 0. -/
theorem claim5_store_input_witness :
    c5wMachine.store_input (.Position 0) =
      ({ c5wMachine with inputs := ([] : List Int) }).write 0 7 :=
  claim5_store_input.1 c5wMachine 7 [] 0 rfl

/-! ### C3: memory read/write semantics

The claim as frozen is refuted by the machine whose backing storage is
empty: `Computer::write` evaluates `self.memory.len() - 1` in its grow
loop, which aborts when the vector is empty, instead of growing and
storing.  The amended statement adds the non-empty-storage hypothesis. -/

/-- Counterexample to C3 as stated: on the machine built from the empty
program, `write(0, 5)` does not store 5 at address 0 — it is a fatal
fault (`memory.len() - 1` underflows in the grow loop). -/
theorem claim3_memory_read_write_cex :
    ¬ (∀ (c : Computer) (p v : Int), 0 ≤ p →
        ∃ d, c.write p v = .ok d ∧ d.read p = .ok v) := by
  intro h
  obtain ⟨d, hd, -⟩ := h (Computer.new []) 0 5 le_rfl
  have : (Computer.new []).write 0 5 = .error Fault.growOnEmptyMemory := rfl
  rw [this] at hd
  exact Except.noConfusion hd

/-- C3 (amended): for every machine, a negative address is a fatal fault
for both `read` and `write`; `read` returns the stored value in range and
0 beyond the extent (and, being a non-mutating function of the machine,
leaves it unchanged); and, provided the backing storage is non-empty,
`write` zero-fill-grows the storage so the address becomes a valid index
and stores the value, so a subsequent `read` of that address returns it
and every other address keeps its previous (possibly virtual-zero)
value. -/
theorem claim3_memory_read_write_amended :
    (∀ (c : Computer) (p : Int), p < 0 →
      c.read p = .error (.negativeAddress p)) ∧
    (∀ (c : Computer) (p : Int) (_hp : 0 ≤ p)
      (hlt : p.toNat < c.memory.length),
      c.read p = .ok (c.memory.get ⟨p.toNat, hlt⟩)) ∧
    (∀ (c : Computer) (p : Int), 0 ≤ p → c.memory.length ≤ p.toNat →
      c.read p = .ok 0) ∧
    (∀ (c : Computer) (p v : Int), p < 0 →
      c.write p v = .error (.negativeAddress p)) ∧
    (∀ (c : Computer) (p v : Int), 0 ≤ p → c.memory ≠ [] →
      ∃ d, c.write p v = .ok d ∧
        d.read p = .ok v ∧
        d.memory.length = max c.memory.length (p.toNat + 1) ∧
        (∀ j : Nat, j ≠ p.toNat → d.memory.getD j 0 = c.memory.getD j 0)) := by
  refine ⟨?_, ?_, ?_, ?_, ?_⟩
  · intro c p h; simp [Computer.read, h]
  · intro c p hp hlt
    simp [Computer.read, not_lt.mpr hp]
    rw [List.getElem?_eq_getElem hlt]
    rfl
  · intro c p h hle
    simp [Computer.read, not_lt.mpr h]
    rw [List.getElem?_eq_none hle]
    rfl
  · intro c p v h; simp [Computer.write, h]
  · intro c p v hp hne
    have hlen0 : c.memory.length ≠ 0 := by simpa using hne
    have hgrow : p.toNat <
        (c.memory ++ List.replicate (p.toNat + 1 - c.memory.length) 0).length := by
      simp [List.length_append, List.length_replicate]; omega
    refine ⟨{ c with memory := (c.memory ++
        List.replicate (p.toNat + 1 - c.memory.length) 0).set p.toNat v },
      ?_, ?_, ?_, ?_⟩
    · simp [Computer.write, not_lt.mpr hp, hlen0]
    · simp [Computer.read, not_lt.mpr hp]
      rw [List.getElem?_set_self hgrow]
      rfl
    · simp [List.length_set, List.length_append, List.length_replicate]; omega
    · intro j hj
      simp only [List.getD_eq_getElem?_getD]
      rw [List.getElem?_set_ne (Ne.symm hj)]
      rcases lt_or_ge j c.memory.length with hlt | hge
      · rw [List.getElem?_append_left hlt]
      · rw [List.getElem?_append_right hge, List.getElem?_eq_none hge,
          List.getElem?_replicate]
        rcases lt_or_ge (j - c.memory.length)
            (p.toNat + 1 - c.memory.length) with hr | hr
        · simp [hr]
        · simp [Nat.not_lt.mpr hr]

/-- Witness for the amended C3, at the machine `new [1,2,3]` and address
5: the write grows memory from 3 cells to 6 and reads back 9. -/
theorem claim3_memory_read_write_amended_witness :
    ∃ d, (Computer.new [1, 2, 3]).write 5 9 = .ok d ∧
      d.read 5 = .ok 9 ∧
      d.memory.length =
        max (Computer.new [1, 2, 3]).memory.length ((5 : Int).toNat + 1) ∧
      (∀ j : Nat, j ≠ (5 : Int).toNat →
        d.memory.getD j 0 = (Computer.new [1, 2, 3]).memory.getD j 0) :=
  claim3_memory_read_write_amended.2.2.2.2 (Computer.new [1, 2, 3]) 5 9
    (by norm_num) (by simp [Computer.new])

/-! ### C1: the per-operation effect of one execute step -/

/-- C1: one `execute` step has exactly the effect given in the spec's
operation table, where `deref(Position p) = read p`,
`deref(Immediate n) = n`, `deref(Relative o) = read (relative_base + o)`,
and an `Immediate` parameter as the write target of
Add/Mul/LessThan/Equals/StoreInput is a fatal fault. -/
theorem claim1_execute_operation_table :
    (∀ (c : Computer) (p : Int), c.deref (.Position p) = c.read p) ∧
    (∀ (c : Computer) (n : Int), c.deref (.Immediate n) = .ok n) ∧
    (∀ (c : Computer) (o : Int),
      c.deref (.Relative o) = c.read (c.relative_base + o)) ∧
    (∀ (c : Computer) (pa pb pc : Parameter) (a b : Int),
      c.op = some (.Add pa pb pc) → c.deref pa = .ok a → c.deref pb = .ok b →
      (∀ p, pc = .Position p → c.execute = c.write p (a + b)) ∧
      (∀ o, pc = .Relative o →
        c.execute = c.write (o + c.relative_base) (a + b)) ∧
      (∀ n, pc = .Immediate n → c.execute = .error .immediateWriteTarget)) ∧
    (∀ (c : Computer) (pa pb pc : Parameter) (a b : Int),
      c.op = some (.Mul pa pb pc) → c.deref pa = .ok a → c.deref pb = .ok b →
      (∀ p, pc = .Position p → c.execute = c.write p (a * b)) ∧
      (∀ o, pc = .Relative o →
        c.execute = c.write (o + c.relative_base) (a * b)) ∧
      (∀ n, pc = .Immediate n → c.execute = .error .immediateWriteTarget)) ∧
    (∀ (c : Computer) (pa pb pc : Parameter) (a b : Int),
      c.op = some (.LessThan pa pb pc) → c.deref pa = .ok a → c.deref pb = .ok b →
      (∀ p, pc = .Position p →
        c.execute = c.write p (if a < b then 1 else 0)) ∧
      (∀ o, pc = .Relative o →
        c.execute = c.write (o + c.relative_base) (if a < b then 1 else 0)) ∧
      (∀ n, pc = .Immediate n → c.execute = .error .immediateWriteTarget)) ∧
    (∀ (c : Computer) (pa pb pc : Parameter) (a b : Int),
      c.op = some (.Equals pa pb pc) → c.deref pa = .ok a → c.deref pb = .ok b →
      (∀ p, pc = .Position p →
        c.execute = c.write p (if a = b then 1 else 0)) ∧
      (∀ o, pc = .Relative o →
        c.execute = c.write (o + c.relative_base) (if a = b then 1 else 0)) ∧
      (∀ n, pc = .Immediate n → c.execute = .error .immediateWriteTarget)) ∧
    (∀ (c : Computer) (pa : Parameter) (a : Int),
      c.op = some (.WriteOutput pa) → c.deref pa = .ok a →
      c.execute = .ok { c with outputs := c.outputs ++ [a] }) ∧
    (∀ (c : Computer) (pa pb : Parameter) (a : Int),
      c.op = some (.JumpIfTrue pa pb) → c.deref pa = .ok a →
      (a = 0 → c.execute = .ok c) ∧
      (a ≠ 0 → ∀ t, c.deref pb = .ok t → c.execute = .ok { c with ip := t })) ∧
    (∀ (c : Computer) (pa pb : Parameter) (a : Int),
      c.op = some (.JumpIfFalse pa pb) → c.deref pa = .ok a →
      (a ≠ 0 → c.execute = .ok c) ∧
      (a = 0 → ∀ t, c.deref pb = .ok t → c.execute = .ok { c with ip := t })) ∧
    (∀ (c : Computer) (pa : Parameter) (a : Int),
      c.op = some (.AdjustRelativeBase pa) → c.deref pa = .ok a →
      c.execute = .ok { c with relative_base := c.relative_base + a }) ∧
    (∀ c : Computer, c.op = some .Halt →
      c.execute = .ok { c with state := ComputerState.Halted }) ∧
    (∀ (c : Computer) (n x : Int) (rest : List Int),
      c.op = some (.StoreInput (.Immediate n)) → c.inputs = x :: rest →
      c.execute = .error .immediateWriteTarget) := by
  refine ⟨fun c p => rfl, fun c n => rfl, fun c o => rfl,
    ?_, ?_, ?_, ?_, ?_, ?_, ?_, ?_, ?_, ?_⟩
  · intro c pa pb pc a b hop ha hb
    refine ⟨?_, ?_, ?_⟩ <;> intro t ht <;> subst ht <;>
      simp [Computer.execute, hop, Computer.binary_op, ha, hb]
  · intro c pa pb pc a b hop ha hb
    refine ⟨?_, ?_, ?_⟩ <;> intro t ht <;> subst ht <;>
      simp [Computer.execute, hop, Computer.binary_op, ha, hb]
  · intro c pa pb pc a b hop ha hb
    refine ⟨?_, ?_, ?_⟩ <;> intro t ht <;> subst ht <;>
      simp [Computer.execute, hop, Computer.binary_op, ha, hb]
  · intro c pa pb pc a b hop ha hb
    refine ⟨?_, ?_, ?_⟩ <;> intro t ht <;> subst ht <;>
      simp [Computer.execute, hop, Computer.binary_op, ha, hb]
  · intro c pa a hop ha
    simp [Computer.execute, hop, Computer.write_output, ha]
  · intro c pa pb a hop ha
    constructor
    · intro h0
      simp [Computer.execute, hop, Computer.jump_if_true, ha, h0]
    · intro hne t htb
      simp [Computer.execute, hop, Computer.jump_if_true, ha, hne, htb]
  · intro c pa pb a hop ha
    constructor
    · intro hne
      simp [Computer.execute, hop, Computer.jump_if_false, ha, hne]
    · intro h0 t htb
      simp [Computer.execute, hop, Computer.jump_if_false, ha, h0, htb]
  · intro c pa a hop ha
    simp [Computer.execute, hop, Computer.adjust_relative_base, ha]
  · intro c hop
    simp [Computer.execute, hop]
  · intro c n x rest hop hin
    simp [Computer.execute, hop, Computer.store_input, hin]

/-- Concrete machine used to witness C1: an `Add` with two immediate
parameters and a position write target is loaded. -/
def c1wMachine : Computer :=
  { Computer.new [1101, 2, 3, 0] with
    state := ComputerState.Running
    ip := 4
    op := some (.Add (.Immediate 2) (.Immediate 3) (.Position 0)) }

/-- Witness for C1 at a concrete machine: executing the loaded
`Add(Immediate 2, Immediate 3, Position 0)` writes 2 + 3 to address 0. -/
theorem claim1_execute_operation_table_witness :
    c1wMachine.execute = c1wMachine.write 0 (2 + 3) :=
  (claim1_execute_operation_table.2.2.2.1 c1wMachine (.Immediate 2)
    (.Immediate 3) (.Position 0) 2 3 rfl rfl rfl).1 0 rfl

/-! ### Decoder arithmetic: truncating div/mod digit extraction -/

/-- Negation commutes with `tmod` in the first argument (on `ofNat`
representatives); Rust's `%` has the sign of the dividend. -/
theorem neg_ofNat_tmod (q c : Nat) :
    (-(Int.ofNat q)).tmod (Int.ofNat c) = -Int.ofNat (q % c) := by
  cases q with
  | zero => simp
  | succ k => rfl

/-- Digit-extraction identity for the truncating operators: taking the
word modulo `b*c` and then dividing by `b` equals dividing by `b` and
then taking the result modulo `c`.  This is the bridge between the
source's `w % 10^(i+3) / 10^(i+2)` and the spec's
`(w / 10^(i+2)) mod 10`. -/
theorem tmod_tdiv_digit (w : Int) (b c : Nat) :
    (w.tmod ((b : Int) * (c : Int))).tdiv (b : Int) =
      (w.tdiv (b : Int)).tmod (c : Int) := by
  have e1 : ((b : Int) * (c : Int)) = Int.ofNat (b * c) := (Int.ofNat_mul b c).symm
  rw [e1]
  cases w with
  | ofNat m =>
    show Int.ofNat (m % (b * c) / b) = Int.ofNat (m / b % c)
    exact congrArg Int.ofNat (Nat.mod_mul_right_div_self m b c)
  | negSucc m =>
    show ((-Int.ofNat ((m + 1) % (b * c))).tdiv (Int.ofNat b)) =
      ((-Int.ofNat ((m + 1) / b)).tmod (Int.ofNat c))
    rw [Int.neg_tdiv, neg_ofNat_tmod]
    show -Int.ofNat ((m + 1) % (b * c) / b) = -Int.ofNat ((m + 1) / b % c)
    exact congrArg Neg.neg
      (congrArg Int.ofNat (Nat.mod_mul_right_div_self (m + 1) b c))

/-- The source's opcode extraction is the word modulo 100 (truncating). -/
theorem OpDecoder.opcode_eq_tmod (w : Int) :
    OpDecoder.opcode w = w.tmod 100 := by
  norm_num [OpDecoder.opcode, OP_PARAMETER_BASE, OP_PARAMETER_BASE_POS]

/-- Specification-side mode formula: the mode of parameter `i` (0-based)
is `(W / 10^(i+2)) mod 10` with truncating operators; absent decimal
digits are implicitly 0. -/
def specMode (w : Int) (i : Nat) : Int :=
  (w.tdiv ((10 : Int) ^ (i + 2))).tmod 10

/-- The source's mode extraction agrees with the spec's formula for every
word, positive or negative. -/
theorem OpDecoder.param_type_eq_specMode (w : Int) (i : Nat) :
    OpDecoder.param_type w i = specMode w i := by
  have key := tmod_tdiv_digit w ((10 : Nat) ^ (i + 2)) 10
  push_cast at key
  unfold OpDecoder.param_type specMode
  norm_num [OP_PARAMETER_BASE, OP_PARAMETER_BASE_POS]
  rw [show (10 : Int) ^ (i + 3) = (10 : Int) ^ (i + 2) * 10 from by ring]
  exact key

/-- For a negative word the truncating remainder modulo 100 lies in
`[-99, 0]`. -/
theorem tmod_100_neg_range (w : Int) (h : w < 0) :
    -99 ≤ w.tmod 100 ∧ w.tmod 100 ≤ 0 := by
  cases w with
  | ofNat m => exact absurd h (Int.not_lt.mpr (Int.ofNat_nonneg m))
  | negSucc m =>
    have e : (Int.negSucc m).tmod 100 = -(((m + 1) % 100 : Nat) : Int) := rfl
    have hlt : (m + 1) % 100 < 100 := Nat.mod_lt _ (by norm_num)
    rw [e]
    omega

/-! ### C10: negative instruction words always fault -/

/-- C10: a negative word fetched at the instruction pointer never decodes
to a valid operation: its truncating remainder modulo 100 lies in
`[-99, 0]`, which contains no recognized opcode, so
`read_next_instruction` always takes the unknown-opcode fault branch. -/
theorem claim10_negative_word_faults :
    ∀ (c : Computer) (w : Int) (c1 : Computer),
      c.read_word_and_advance = .ok (w, c1) → w < 0 →
      (-99 ≤ OpDecoder.opcode w ∧ OpDecoder.opcode w ≤ 0) ∧
      c.read_next_instruction = .error (.unknownOpcode (OpDecoder.opcode w)) := by
  intro c w c1 hw hneg
  have hrange := tmod_100_neg_range w hneg
  have h0 : OpDecoder.opcode w ≤ 0 := by
    rw [OpDecoder.opcode_eq_tmod]; exact hrange.2
  have h9 : -99 ≤ OpDecoder.opcode w := by
    rw [OpDecoder.opcode_eq_tmod]; exact hrange.1
  have hne : ∀ k : Int, 1 ≤ k → OpDecoder.opcode w ≠ k := by
    intro k hk he; omega
  refine ⟨⟨h9, h0⟩, ?_⟩
  simp [Computer.read_next_instruction, hw, OP_ADD, OP_MUL, OP_STORE_INPUT,
    OP_WRITE_OUTPUT, OP_JUMP_IF_TRUE, OP_JUMP_IF_FALSE, OP_LESS_THAN,
    OP_EQUALS, OP_ADJUST_RELATIVE_BASE, OP_HALT,
    hne 1 (by norm_num), hne 2 (by norm_num), hne 3 (by norm_num),
    hne 4 (by norm_num), hne 5 (by norm_num), hne 6 (by norm_num),
    hne 7 (by norm_num), hne 8 (by norm_num), hne 9 (by norm_num),
    hne 99 (by norm_num)]

/-- Witness for C10 at the concrete machine `new [-1]`: the word -1 at
the instruction pointer is a decode fault with offending opcode value
`-1 % 100 = -1`. -/
theorem claim10_negative_word_faults_witness :
    (-99 ≤ OpDecoder.opcode (-1) ∧ OpDecoder.opcode (-1) ≤ 0) ∧
      (Computer.new [-1]).read_next_instruction =
        .error (.unknownOpcode (OpDecoder.opcode (-1))) :=
  claim10_negative_word_faults (Computer.new [-1]) (-1)
    { Computer.new [-1] with ip := 1 } rfl (by norm_num)

/-! ### Decode success and fault helper lemmas -/

/-- With a non-negative instruction pointer, fetching a word always
succeeds and advances the pointer by one. -/
theorem Computer.read_word_and_advance_ok (c : Computer) (h : 0 ≤ c.ip) :
    c.read_word_and_advance =
      .ok (c.memory.getD c.ip.toNat 0, { c with ip := c.ip + 1 }) := by
  simp [Computer.read_word_and_advance, Computer.read, not_lt.mpr h]

/-- With a non-negative instruction pointer and a recognized mode,
reading a parameter succeeds and advances the pointer by one. -/
theorem Computer.read_param_and_advance_ok (c : Computer) (t : Int)
    (h : 0 ≤ c.ip) (ht : t ∈ ([0, 1, 2] : List Int)) :
    ∃ pr, c.read_param_and_advance t = .ok (pr, { c with ip := c.ip + 1 }) := by
  rcases (by simpa using ht : t = 0 ∨ t = 1 ∨ t = 2) with rfl | rfl | rfl
  · exact ⟨.Position (c.memory.getD c.ip.toNat 0),
      by simp [Computer.read_param_and_advance, c.read_word_and_advance_ok h,
        PARAM_TYPE_POSITION, PARAM_TYPE_IMMEDIATE, PARAM_TYPE_RELATIVE]⟩
  · exact ⟨.Immediate (c.memory.getD c.ip.toNat 0),
      by simp [Computer.read_param_and_advance, c.read_word_and_advance_ok h,
        PARAM_TYPE_POSITION, PARAM_TYPE_IMMEDIATE, PARAM_TYPE_RELATIVE]⟩
  · exact ⟨.Relative (c.memory.getD c.ip.toNat 0),
      by simp [Computer.read_param_and_advance, c.read_word_and_advance_ok h,
        PARAM_TYPE_POSITION, PARAM_TYPE_IMMEDIATE, PARAM_TYPE_RELATIVE]⟩

/-- One-parameter read succeeds under a recognized mode. -/
theorem Computer.read_params1_ok (c : Computer) (w : Int) (mk : Parameter → Op)
    (h : 0 ≤ c.ip)
    (hm0 : OpDecoder.param_type w 0 ∈ ([0, 1, 2] : List Int)) :
    ∃ d, c.read_params1 w mk = .ok d := by
  obtain ⟨p0, h0⟩ := c.read_param_and_advance_ok _ h hm0
  refine ⟨{ c with ip := c.ip + 1, op := some (mk p0) }, ?_⟩
  simp [Computer.read_params1, h0]

/-- Two-parameter read succeeds under recognized modes. -/
theorem Computer.read_params2_ok (c : Computer) (w : Int)
    (mk : Parameter → Parameter → Op) (h : 0 ≤ c.ip)
    (hm0 : OpDecoder.param_type w 0 ∈ ([0, 1, 2] : List Int))
    (hm1 : OpDecoder.param_type w 1 ∈ ([0, 1, 2] : List Int)) :
    ∃ d, c.read_params2 w mk = .ok d := by
  obtain ⟨p0, h0⟩ := c.read_param_and_advance_ok _ h hm0
  obtain ⟨p1, h1⟩ :=
    Computer.read_param_and_advance_ok { c with ip := c.ip + 1 }
      (OpDecoder.param_type w 1) (show (0 : Int) ≤ c.ip + 1 by omega) hm1
  refine ⟨{ c with ip := c.ip + 1 + 1, op := some (mk p0 p1) }, ?_⟩
  simp [Computer.read_params2, h0, h1]

/-- Three-parameter read succeeds under recognized modes. -/
theorem Computer.read_params3_ok (c : Computer) (w : Int)
    (mk : Parameter → Parameter → Parameter → Op) (h : 0 ≤ c.ip)
    (hm0 : OpDecoder.param_type w 0 ∈ ([0, 1, 2] : List Int))
    (hm1 : OpDecoder.param_type w 1 ∈ ([0, 1, 2] : List Int))
    (hm2 : OpDecoder.param_type w 2 ∈ ([0, 1, 2] : List Int)) :
    ∃ d, c.read_params3 w mk = .ok d := by
  obtain ⟨p0, h0⟩ := c.read_param_and_advance_ok _ h hm0
  obtain ⟨p1, h1⟩ :=
    Computer.read_param_and_advance_ok { c with ip := c.ip + 1 }
      (OpDecoder.param_type w 1) (show (0 : Int) ≤ c.ip + 1 by omega) hm1
  obtain ⟨p2, h2⟩ :=
    Computer.read_param_and_advance_ok { c with ip := c.ip + 1 + 1 }
      (OpDecoder.param_type w 2) (show (0 : Int) ≤ c.ip + 1 + 1 by omega) hm2
  refine ⟨{ c with ip := c.ip + 1 + 1 + 1, op := some (mk p0 p1 p2) }, ?_⟩
  simp [Computer.read_params3, h0, h1, h2]

/-- Specification-side arity table: number of parameter words consumed
by each recognized opcode (0 for halt; 1 for store-input, write-output,
adjust-relative-base; 2 for the jumps; 3 for add, multiply, less-than,
equals). -/
def opArity (opc : Int) : Nat :=
  if opc = OP_HALT then 0
  else if opc = OP_STORE_INPUT ∨ opc = OP_WRITE_OUTPUT ∨
      opc = OP_ADJUST_RELATIVE_BASE then 1
  else if opc = OP_JUMP_IF_TRUE ∨ opc = OP_JUMP_IF_FALSE then 2
  else 3

/-! ### C7: decode faults abort the run; recognized input never faults -/

/-- C7: an opcode outside the recognized set, or a parameter mode outside
0, 1, 2, is a hard decode fault carrying the offending value, and a
decode or execute fault aborts the whole fetch-execute loop; conversely,
when the fetched word has a recognized opcode and all consumed modes are
recognized, the fault branches of the decoder are unreachable. -/
theorem claim7_decode_faults :
    (∀ (c : Computer) (w : Int) (c1 : Computer),
      c.read_word_and_advance = .ok (w, c1) →
      OpDecoder.opcode w ∉ ([1, 2, 3, 4, 5, 6, 7, 8, 9, 99] : List Int) →
      c.read_next_instruction = .error (.unknownOpcode (OpDecoder.opcode w))) ∧
    (∀ (c : Computer) (t : Int), t ∉ ([0, 1, 2] : List Int) →
      ∀ (w : Int) (c1 : Computer), c.read_word_and_advance = .ok (w, c1) →
      c.read_param_and_advance t = .error (.unknownParamType t)) ∧
    (∀ (c : Computer) (f : Fault) (n : Nat), c.state = ComputerState.Running →
      c.read_next_instruction = .error f → c.compute (n + 1) = .error f) ∧
    (∀ (c d : Computer) (f : Fault) (n : Nat), c.state = ComputerState.Running →
      c.read_next_instruction = .ok d → d.execute = .error f →
      c.compute (n + 1) = .error f) ∧
    (∀ c : Computer, 0 ≤ c.ip →
      OpDecoder.opcode (c.memory.getD c.ip.toNat 0) ∈
        ([1, 2, 3, 4, 5, 6, 7, 8, 9, 99] : List Int) →
      (∀ i : Nat, i < opArity (OpDecoder.opcode (c.memory.getD c.ip.toNat 0)) →
        OpDecoder.param_type (c.memory.getD c.ip.toNat 0) i ∈
          ([0, 1, 2] : List Int)) →
      ∃ d, c.read_next_instruction = .ok d) := by
  refine ⟨?_, ?_, ?_, ?_, ?_⟩
  · intro c w c1 hw hno
    simp only [List.mem_cons, List.not_mem_nil, or_false, not_or] at hno
    obtain ⟨n1, n2, n3, n4, n5, n6, n7, n8, n9, n99⟩ := hno
    simp [Computer.read_next_instruction, hw, OP_ADD, OP_MUL, OP_STORE_INPUT,
      OP_WRITE_OUTPUT, OP_JUMP_IF_TRUE, OP_JUMP_IF_FALSE, OP_LESS_THAN,
      OP_EQUALS, OP_ADJUST_RELATIVE_BASE, OP_HALT,
      n1, n2, n3, n4, n5, n6, n7, n8, n9, n99]
  · intro c t ht w c1 hw
    simp only [List.mem_cons, List.not_mem_nil, or_false, not_or] at ht
    obtain ⟨t0, t1, t2⟩ := ht
    simp [Computer.read_param_and_advance, hw, PARAM_TYPE_POSITION,
      PARAM_TYPE_IMMEDIATE, PARAM_TYPE_RELATIVE, t0, t1, t2]
  · intro c f n hs hdec
    rw [Computer.compute_succ_of_running c n hs]
    simp [Computer.step, hdec]
  · intro c d f n hs hdec hexe
    rw [Computer.compute_succ_of_running c n hs]
    simp [Computer.step, hdec, hexe]
  · intro c hip hopc hmod
    have hw := c.read_word_and_advance_ok hip
    have hip1 : (0 : Int) ≤ ({ c with ip := c.ip + 1 } : Computer).ip := by
      simp; omega
    simp only [List.mem_cons, List.not_mem_nil, or_false] at hopc
    rcases hopc with h | h | h | h | h | h | h | h | h | h
    · have ha : opArity (OpDecoder.opcode (c.memory.getD c.ip.toNat 0)) = 3 := by
        rw [h]; rfl
      rw [ha] at hmod
      simp only [Computer.read_next_instruction, hw, h, OP_ADD]
      norm_num
      exact Computer.read_params3_ok _ _ _ hip1 (by simpa using hmod 0 (by norm_num))
        (by simpa using hmod 1 (by norm_num)) (by simpa using hmod 2 (by norm_num))
    · have ha : opArity (OpDecoder.opcode (c.memory.getD c.ip.toNat 0)) = 3 := by
        rw [h]; rfl
      rw [ha] at hmod
      simp only [Computer.read_next_instruction, hw, h, OP_ADD, OP_MUL]
      norm_num
      exact Computer.read_params3_ok _ _ _ hip1 (by simpa using hmod 0 (by norm_num))
        (by simpa using hmod 1 (by norm_num)) (by simpa using hmod 2 (by norm_num))
    · have ha : opArity (OpDecoder.opcode (c.memory.getD c.ip.toNat 0)) = 1 := by
        rw [h]; rfl
      rw [ha] at hmod
      simp only [Computer.read_next_instruction, hw, h, OP_ADD, OP_MUL,
        OP_STORE_INPUT]
      norm_num
      exact Computer.read_params1_ok _ _ _ hip1 (by simpa using hmod 0 (by norm_num))
    · have ha : opArity (OpDecoder.opcode (c.memory.getD c.ip.toNat 0)) = 1 := by
        rw [h]; rfl
      rw [ha] at hmod
      simp only [Computer.read_next_instruction, hw, h, OP_ADD, OP_MUL,
        OP_STORE_INPUT, OP_WRITE_OUTPUT]
      norm_num
      exact Computer.read_params1_ok _ _ _ hip1 (by simpa using hmod 0 (by norm_num))
    · have ha : opArity (OpDecoder.opcode (c.memory.getD c.ip.toNat 0)) = 2 := by
        rw [h]; rfl
      rw [ha] at hmod
      simp only [Computer.read_next_instruction, hw, h, OP_ADD, OP_MUL,
        OP_STORE_INPUT, OP_WRITE_OUTPUT, OP_JUMP_IF_TRUE]
      norm_num
      exact Computer.read_params2_ok _ _ _ hip1 (by simpa using hmod 0 (by norm_num))
        (by simpa using hmod 1 (by norm_num))
    · have ha : opArity (OpDecoder.opcode (c.memory.getD c.ip.toNat 0)) = 2 := by
        rw [h]; rfl
      rw [ha] at hmod
      simp only [Computer.read_next_instruction, hw, h, OP_ADD, OP_MUL,
        OP_STORE_INPUT, OP_WRITE_OUTPUT, OP_JUMP_IF_TRUE, OP_JUMP_IF_FALSE]
      norm_num
      exact Computer.read_params2_ok _ _ _ hip1 (by simpa using hmod 0 (by norm_num))
        (by simpa using hmod 1 (by norm_num))
    · have ha : opArity (OpDecoder.opcode (c.memory.getD c.ip.toNat 0)) = 3 := by
        rw [h]; rfl
      rw [ha] at hmod
      simp only [Computer.read_next_instruction, hw, h, OP_ADD, OP_MUL,
        OP_STORE_INPUT, OP_WRITE_OUTPUT, OP_JUMP_IF_TRUE, OP_JUMP_IF_FALSE,
        OP_LESS_THAN]
      norm_num
      exact Computer.read_params3_ok _ _ _ hip1 (by simpa using hmod 0 (by norm_num))
        (by simpa using hmod 1 (by norm_num)) (by simpa using hmod 2 (by norm_num))
    · have ha : opArity (OpDecoder.opcode (c.memory.getD c.ip.toNat 0)) = 3 := by
        rw [h]; rfl
      rw [ha] at hmod
      simp only [Computer.read_next_instruction, hw, h, OP_ADD, OP_MUL,
        OP_STORE_INPUT, OP_WRITE_OUTPUT, OP_JUMP_IF_TRUE, OP_JUMP_IF_FALSE,
        OP_LESS_THAN, OP_EQUALS]
      norm_num
      exact Computer.read_params3_ok _ _ _ hip1 (by simpa using hmod 0 (by norm_num))
        (by simpa using hmod 1 (by norm_num)) (by simpa using hmod 2 (by norm_num))
    · have ha : opArity (OpDecoder.opcode (c.memory.getD c.ip.toNat 0)) = 1 := by
        rw [h]; rfl
      rw [ha] at hmod
      simp only [Computer.read_next_instruction, hw, h, OP_ADD, OP_MUL,
        OP_STORE_INPUT, OP_WRITE_OUTPUT, OP_JUMP_IF_TRUE, OP_JUMP_IF_FALSE,
        OP_LESS_THAN, OP_EQUALS, OP_ADJUST_RELATIVE_BASE]
      norm_num
      exact Computer.read_params1_ok _ _ _ hip1 (by simpa using hmod 0 (by norm_num))
    · simp only [Computer.read_next_instruction, hw, h, OP_ADD, OP_MUL,
        OP_STORE_INPUT, OP_WRITE_OUTPUT, OP_JUMP_IF_TRUE, OP_JUMP_IF_FALSE,
        OP_LESS_THAN, OP_EQUALS, OP_ADJUST_RELATIVE_BASE, OP_HALT]
      norm_num

/-- Witness for C7 at the concrete machine `new [0]`: opcode 0 is not
recognized, so decoding is the unknown-opcode fault carrying 0. -/
theorem claim7_decode_faults_witness :
    (Computer.new [0]).read_next_instruction =
      .error (.unknownOpcode (OpDecoder.opcode 0)) :=
  claim7_decode_faults.1 (Computer.new [0]) 0
    { Computer.new [0] with ip := 1 } rfl (by decide)

/-! ### C2: specification-side decoder and the decode characterization -/

/-- Specification-side parameter construction: tag a consumed word `v`
with mode `m` (0 = Position, 1 = Immediate, 2 = Relative; anything else
is a fault, represented by `none`). -/
def specParamOfMode (m v : Int) : Option Parameter :=
  if m = 0 then some (.Position v)
  else if m = 1 then some (.Immediate v)
  else if m = 2 then some (.Relative v)
  else none

/-- Specification-side fetch of the word `k` places past the instruction
pointer (reads beyond the end of memory yield 0). -/
def specWord (c : Computer) (k : Nat) : Int :=
  c.memory.getD (c.ip.toNat + k) 0

/-- Specification-side decoder, following the spec's words: the word at
the instruction pointer has `opcode = W mod 100`; parameter `i` has mode
`(W / 10^(i+2)) mod 10`; the decoder consumes exactly arity-many
following words, tags each with its mode, and leaves the instruction
pointer advanced by `1 + arity`. -/
def SpecDecode (c : Computer) : Option (Op × Int) :=
  let w := specWord c 0
  let opc := w.tmod 100
  let pr := fun (i : Nat) => specParamOfMode (specMode w i) (specWord c (i + 1))
  if opc = 1 then
    match pr 0, pr 1, pr 2 with
    | some a, some b, some t => some (.Add a b t, c.ip + 4)
    | _, _, _ => none
  else if opc = 2 then
    match pr 0, pr 1, pr 2 with
    | some a, some b, some t => some (.Mul a b t, c.ip + 4)
    | _, _, _ => none
  else if opc = 3 then
    match pr 0 with
    | some a => some (.StoreInput a, c.ip + 2)
    | none => none
  else if opc = 4 then
    match pr 0 with
    | some a => some (.WriteOutput a, c.ip + 2)
    | none => none
  else if opc = 5 then
    match pr 0, pr 1 with
    | some a, some b => some (.JumpIfTrue a b, c.ip + 3)
    | _, _ => none
  else if opc = 6 then
    match pr 0, pr 1 with
    | some a, some b => some (.JumpIfFalse a b, c.ip + 3)
    | _, _ => none
  else if opc = 7 then
    match pr 0, pr 1, pr 2 with
    | some a, some b, some t => some (.LessThan a b t, c.ip + 4)
    | _, _, _ => none
  else if opc = 8 then
    match pr 0, pr 1, pr 2 with
    | some a, some b, some t => some (.Equals a b t, c.ip + 4)
    | _, _, _ => none
  else if opc = 9 then
    match pr 0 with
    | some a => some (.AdjustRelativeBase a, c.ip + 2)
    | none => none
  else if opc = 99 then some (Op.Halt, c.ip + 1)
  else none

/-- Characterization of a successful single-parameter read: the machine
advances by one word and the parameter is the fetched word tagged
according to the requested mode. -/
theorem Computer.read_param_and_advance_char (c : Computer) (t : Int)
    (pr : Parameter) (d : Computer) (h : 0 ≤ c.ip)
    (he : c.read_param_and_advance t = .ok (pr, d)) :
    d = { c with ip := c.ip + 1 } ∧
    specParamOfMode t (c.memory.getD c.ip.toNat 0) = some pr := by
  simp only [Computer.read_param_and_advance,
    c.read_word_and_advance_ok h] at he
  by_cases h0 : t = PARAM_TYPE_POSITION
  · rw [if_pos h0] at he
    obtain ⟨rfl, rfl⟩ : Parameter.Position (c.memory.getD c.ip.toNat 0) = pr ∧
        { c with ip := c.ip + 1 } = d := by
      simpa using he
    simp [specParamOfMode, h0, PARAM_TYPE_POSITION]
  · rw [if_neg h0] at he
    by_cases h1 : t = PARAM_TYPE_IMMEDIATE
    · rw [if_pos h1] at he
      obtain ⟨rfl, rfl⟩ : Parameter.Immediate (c.memory.getD c.ip.toNat 0) = pr ∧
          { c with ip := c.ip + 1 } = d := by
        simpa using he
      refine ⟨rfl, ?_⟩
      simp [specParamOfMode, h1, PARAM_TYPE_IMMEDIATE, PARAM_TYPE_POSITION]
    · rw [if_neg h1] at he
      by_cases h2 : t = PARAM_TYPE_RELATIVE
      · rw [if_pos h2] at he
        obtain ⟨rfl, rfl⟩ : Parameter.Relative (c.memory.getD c.ip.toNat 0) = pr ∧
            { c with ip := c.ip + 1 } = d := by
          simpa using he
        refine ⟨rfl, ?_⟩
        have e0 : t ≠ 0 := by simpa [PARAM_TYPE_POSITION] using h0
        have e1 : t ≠ 1 := by simpa [PARAM_TYPE_IMMEDIATE] using h1
        simp [specParamOfMode, h2, PARAM_TYPE_RELATIVE, e0, e1]
      · rw [if_neg h2] at he
        exact absurd he (by simp)

/-- Characterization of a successful one-parameter decode body. -/
theorem Computer.read_params1_char (c : Computer) (w : Int)
    (mk : Parameter → Op) (d : Computer) (h : 0 ≤ c.ip)
    (he : c.read_params1 w mk = .ok d) :
    ∃ p0, specParamOfMode (OpDecoder.param_type w 0)
        (c.memory.getD c.ip.toNat 0) = some p0 ∧
      d = { c with ip := c.ip + 1, op := some (mk p0) } := by
  rw [Computer.read_params1] at he
  rcases e0 : c.read_param_and_advance (OpDecoder.param_type w 0) with f | ⟨p0, c1⟩ <;>
    rw [e0] at he
  · exact absurd he (by simp)
  · obtain ⟨rfl, hs0⟩ := c.read_param_and_advance_char _ p0 c1 h e0
    obtain rfl : ({ c with ip := c.ip + 1, op := some (mk p0) } : Computer) = d := by
      simpa using he
    exact ⟨p0, hs0, rfl⟩

/-- Characterization of a successful two-parameter decode body. -/
theorem Computer.read_params2_char (c : Computer) (w : Int)
    (mk : Parameter → Parameter → Op) (d : Computer) (h : 0 ≤ c.ip)
    (he : c.read_params2 w mk = .ok d) :
    ∃ p0 p1, specParamOfMode (OpDecoder.param_type w 0)
        (c.memory.getD c.ip.toNat 0) = some p0 ∧
      specParamOfMode (OpDecoder.param_type w 1)
        (c.memory.getD (c.ip.toNat + 1) 0) = some p1 ∧
      d = { c with ip := c.ip + 1 + 1, op := some (mk p0 p1) } := by
  rw [Computer.read_params2] at he
  rcases e0 : c.read_param_and_advance (OpDecoder.param_type w 0) with f | ⟨p0, c1⟩
  · rw [e0] at he; exact absurd he (by simp)
  · obtain ⟨rfl, hs0⟩ := c.read_param_and_advance_char _ p0 c1 h e0
    simp only [e0] at he
    rcases e1 : Computer.read_param_and_advance { c with ip := c.ip + 1 }
        (OpDecoder.param_type w 1) with f | ⟨p1, c2⟩
    · rw [e1] at he; exact absurd he (by simp)
    · obtain ⟨rfl, hs1⟩ := Computer.read_param_and_advance_char _ _ p1 c2
        (show (0 : Int) ≤ c.ip + 1 by omega) e1
      simp only [e1] at he
      refine ⟨p0, p1, hs0, ?_, ?_⟩
      · simpa [show (c.ip + 1).toNat = c.ip.toNat + 1 from by omega] using hs1
      · simpa using he.symm

/-- Characterization of a successful three-parameter decode body. -/
theorem Computer.read_params3_char (c : Computer) (w : Int)
    (mk : Parameter → Parameter → Parameter → Op) (d : Computer) (h : 0 ≤ c.ip)
    (he : c.read_params3 w mk = .ok d) :
    ∃ p0 p1 p2, specParamOfMode (OpDecoder.param_type w 0)
        (c.memory.getD c.ip.toNat 0) = some p0 ∧
      specParamOfMode (OpDecoder.param_type w 1)
        (c.memory.getD (c.ip.toNat + 1) 0) = some p1 ∧
      specParamOfMode (OpDecoder.param_type w 2)
        (c.memory.getD (c.ip.toNat + 2) 0) = some p2 ∧
      d = { c with ip := c.ip + 1 + 1 + 1, op := some (mk p0 p1 p2) } := by
  rw [Computer.read_params3] at he
  rcases e0 : c.read_param_and_advance (OpDecoder.param_type w 0) with f | ⟨p0, c1⟩
  · rw [e0] at he; exact absurd he (by simp)
  · obtain ⟨rfl, hs0⟩ := c.read_param_and_advance_char _ p0 c1 h e0
    simp only [e0] at he
    rcases e1 : Computer.read_param_and_advance { c with ip := c.ip + 1 }
        (OpDecoder.param_type w 1) with f | ⟨p1, c2⟩
    · rw [e1] at he; exact absurd he (by simp)
    · obtain ⟨rfl, hs1⟩ := Computer.read_param_and_advance_char _ _ p1 c2
        (show (0 : Int) ≤ c.ip + 1 by omega) e1
      simp only [e1] at he
      rcases e2 : Computer.read_param_and_advance { c with ip := c.ip + 1 + 1 }
          (OpDecoder.param_type w 2) with f | ⟨p2, c3⟩
      · rw [e2] at he; exact absurd he (by simp)
      · obtain ⟨rfl, hs2⟩ := Computer.read_param_and_advance_char _ _ p2 c3
          (show (0 : Int) ≤ c.ip + 1 + 1 by omega) e2
        simp only [e2] at he
        refine ⟨p0, p1, p2, hs0, ?_, ?_, ?_⟩
        · simpa [show (c.ip + 1).toNat = c.ip.toNat + 1 from by omega] using hs1
        · simpa [show (c.ip + 1 + 1).toNat = c.ip.toNat + 2 from by omega] using hs2
        · simpa using he.symm

/-- Full characterization of a successful decode: with a non-negative
instruction pointer, a successful `read_next_instruction` changes only
the `op` slot and the instruction pointer, its result agrees with the
specification-side decoder, and the instruction pointer advances by
exactly `1 + arity`. -/
theorem Computer.decode_char :
    ∀ (c d : Computer), 0 ≤ c.ip → c.read_next_instruction = .ok d →
      d.memory = c.memory ∧ d.state = c.state ∧ d.inputs = c.inputs ∧
      d.outputs = c.outputs ∧ d.relative_base = c.relative_base ∧
      ∃ o, d.op = some o ∧ SpecDecode c = some (o, d.ip) ∧
        d.ip = c.ip + (1 + (opArity (OpDecoder.opcode (specWord c 0)) : Int)) := by
  intro c d hip hdec
  have hw := c.read_word_and_advance_ok hip
  simp only [Computer.read_next_instruction, hw] at hdec
  by_cases h1 : OpDecoder.opcode (c.memory.getD c.ip.toNat 0) = OP_ADD
  · rw [if_pos h1] at hdec
    obtain ⟨p0, p1, p2, s0, s1, s2, rfl⟩ :=
      Computer.read_params3_char _ _ Op.Add d (show (0 : Int) ≤ c.ip + 1 by omega) hdec
    refine ⟨rfl, rfl, rfl, rfl, rfl, Op.Add p0 p1 p2, rfl, ?_, ?_⟩
    · have e : specWord c 0 = c.memory.getD c.ip.toNat 0 := by simp [specWord]
      have ho : (specWord c 0).tmod 100 = 1 := by
        rw [e, ← OpDecoder.opcode_eq_tmod]
        simpa [OP_ADD] using h1
      have m0 : specParamOfMode (specMode (specWord c 0) 0) (specWord c 1) = some p0 := by
        rw [e, ← OpDecoder.param_type_eq_specMode]
        simpa [specWord, show ((c.ip : Int) + 1).toNat = c.ip.toNat + 1 from by omega] using s0
      have m1 : specParamOfMode (specMode (specWord c 0) 1) (specWord c 2) = some p1 := by
        rw [e, ← OpDecoder.param_type_eq_specMode]
        simpa [specWord, show ((c.ip : Int) + 1).toNat = c.ip.toNat + 1 from by omega,
        show c.ip.toNat + 1 + 1 = c.ip.toNat + 2 from by omega] using s1
      have m2 : specParamOfMode (specMode (specWord c 0) 2) (specWord c 3) = some p2 := by
        rw [e, ← OpDecoder.param_type_eq_specMode]
        simpa [specWord, show ((c.ip : Int) + 1).toNat = c.ip.toNat + 1 from by omega,
        show c.ip.toNat + 1 + 1 = c.ip.toNat + 2 from by omega,
        show c.ip.toNat + 2 + 1 = c.ip.toNat + 3 from by omega] using s2
      try simp [SpecDecode, ho, m0, m1, m2]
      try ring_nf
      try omega
    · have e : specWord c 0 = c.memory.getD c.ip.toNat 0 := by simp [specWord]
      have hoW : OpDecoder.opcode (specWord c 0) = 1 := by
        rw [e]; simpa [OP_ADD] using h1
      rw [hoW]
      norm_num [opArity, OP_HALT, OP_STORE_INPUT, OP_WRITE_OUTPUT,
        OP_ADJUST_RELATIVE_BASE, OP_JUMP_IF_TRUE, OP_JUMP_IF_FALSE]
      try simp
      try ring_nf
      try omega
  rw [if_neg h1] at hdec
  by_cases h2 : OpDecoder.opcode (c.memory.getD c.ip.toNat 0) = OP_MUL
  · rw [if_pos h2] at hdec
    obtain ⟨p0, p1, p2, s0, s1, s2, rfl⟩ :=
      Computer.read_params3_char _ _ Op.Mul d (show (0 : Int) ≤ c.ip + 1 by omega) hdec
    refine ⟨rfl, rfl, rfl, rfl, rfl, Op.Mul p0 p1 p2, rfl, ?_, ?_⟩
    · have e : specWord c 0 = c.memory.getD c.ip.toNat 0 := by simp [specWord]
      have ho : (specWord c 0).tmod 100 = 2 := by
        rw [e, ← OpDecoder.opcode_eq_tmod]
        simpa [OP_MUL] using h2
      have m0 : specParamOfMode (specMode (specWord c 0) 0) (specWord c 1) = some p0 := by
        rw [e, ← OpDecoder.param_type_eq_specMode]
        simpa [specWord, show ((c.ip : Int) + 1).toNat = c.ip.toNat + 1 from by omega] using s0
      have m1 : specParamOfMode (specMode (specWord c 0) 1) (specWord c 2) = some p1 := by
        rw [e, ← OpDecoder.param_type_eq_specMode]
        simpa [specWord, show ((c.ip : Int) + 1).toNat = c.ip.toNat + 1 from by omega,
        show c.ip.toNat + 1 + 1 = c.ip.toNat + 2 from by omega] using s1
      have m2 : specParamOfMode (specMode (specWord c 0) 2) (specWord c 3) = some p2 := by
        rw [e, ← OpDecoder.param_type_eq_specMode]
        simpa [specWord, show ((c.ip : Int) + 1).toNat = c.ip.toNat + 1 from by omega,
        show c.ip.toNat + 1 + 1 = c.ip.toNat + 2 from by omega,
        show c.ip.toNat + 2 + 1 = c.ip.toNat + 3 from by omega] using s2
      try simp [SpecDecode, ho, m0, m1, m2]
      try ring_nf
      try omega
    · have e : specWord c 0 = c.memory.getD c.ip.toNat 0 := by simp [specWord]
      have hoW : OpDecoder.opcode (specWord c 0) = 2 := by
        rw [e]; simpa [OP_MUL] using h2
      rw [hoW]
      norm_num [opArity, OP_HALT, OP_STORE_INPUT, OP_WRITE_OUTPUT,
        OP_ADJUST_RELATIVE_BASE, OP_JUMP_IF_TRUE, OP_JUMP_IF_FALSE]
      try simp
      try ring_nf
      try omega
  rw [if_neg h2] at hdec
  by_cases h3 : OpDecoder.opcode (c.memory.getD c.ip.toNat 0) = OP_STORE_INPUT
  · rw [if_pos h3] at hdec
    obtain ⟨p0, s0, rfl⟩ :=
      Computer.read_params1_char _ _ Op.StoreInput d (show (0 : Int) ≤ c.ip + 1 by omega) hdec
    refine ⟨rfl, rfl, rfl, rfl, rfl, Op.StoreInput p0, rfl, ?_, ?_⟩
    · have e : specWord c 0 = c.memory.getD c.ip.toNat 0 := by simp [specWord]
      have ho : (specWord c 0).tmod 100 = 3 := by
        rw [e, ← OpDecoder.opcode_eq_tmod]
        simpa [OP_STORE_INPUT] using h3
      have m0 : specParamOfMode (specMode (specWord c 0) 0) (specWord c 1) = some p0 := by
        rw [e, ← OpDecoder.param_type_eq_specMode]
        simpa [specWord, show ((c.ip : Int) + 1).toNat = c.ip.toNat + 1 from by omega] using s0
      try simp [SpecDecode, ho, m0]
      try ring_nf
      try omega
    · have e : specWord c 0 = c.memory.getD c.ip.toNat 0 := by simp [specWord]
      have hoW : OpDecoder.opcode (specWord c 0) = 3 := by
        rw [e]; simpa [OP_STORE_INPUT] using h3
      rw [hoW]
      norm_num [opArity, OP_HALT, OP_STORE_INPUT, OP_WRITE_OUTPUT,
        OP_ADJUST_RELATIVE_BASE, OP_JUMP_IF_TRUE, OP_JUMP_IF_FALSE]
      try simp
      try ring_nf
      try omega
  rw [if_neg h3] at hdec
  by_cases h4 : OpDecoder.opcode (c.memory.getD c.ip.toNat 0) = OP_WRITE_OUTPUT
  · rw [if_pos h4] at hdec
    obtain ⟨p0, s0, rfl⟩ :=
      Computer.read_params1_char _ _ Op.WriteOutput d (show (0 : Int) ≤ c.ip + 1 by omega) hdec
    refine ⟨rfl, rfl, rfl, rfl, rfl, Op.WriteOutput p0, rfl, ?_, ?_⟩
    · have e : specWord c 0 = c.memory.getD c.ip.toNat 0 := by simp [specWord]
      have ho : (specWord c 0).tmod 100 = 4 := by
        rw [e, ← OpDecoder.opcode_eq_tmod]
        simpa [OP_WRITE_OUTPUT] using h4
      have m0 : specParamOfMode (specMode (specWord c 0) 0) (specWord c 1) = some p0 := by
        rw [e, ← OpDecoder.param_type_eq_specMode]
        simpa [specWord, show ((c.ip : Int) + 1).toNat = c.ip.toNat + 1 from by omega] using s0
      try simp [SpecDecode, ho, m0]
      try ring_nf
      try omega
    · have e : specWord c 0 = c.memory.getD c.ip.toNat 0 := by simp [specWord]
      have hoW : OpDecoder.opcode (specWord c 0) = 4 := by
        rw [e]; simpa [OP_WRITE_OUTPUT] using h4
      rw [hoW]
      norm_num [opArity, OP_HALT, OP_STORE_INPUT, OP_WRITE_OUTPUT,
        OP_ADJUST_RELATIVE_BASE, OP_JUMP_IF_TRUE, OP_JUMP_IF_FALSE]
      try simp
      try ring_nf
      try omega
  rw [if_neg h4] at hdec
  by_cases h5 : OpDecoder.opcode (c.memory.getD c.ip.toNat 0) = OP_JUMP_IF_TRUE
  · rw [if_pos h5] at hdec
    obtain ⟨p0, p1, s0, s1, rfl⟩ :=
      Computer.read_params2_char _ _ Op.JumpIfTrue d (show (0 : Int) ≤ c.ip + 1 by omega) hdec
    refine ⟨rfl, rfl, rfl, rfl, rfl, Op.JumpIfTrue p0 p1, rfl, ?_, ?_⟩
    · have e : specWord c 0 = c.memory.getD c.ip.toNat 0 := by simp [specWord]
      have ho : (specWord c 0).tmod 100 = 5 := by
        rw [e, ← OpDecoder.opcode_eq_tmod]
        simpa [OP_JUMP_IF_TRUE] using h5
      have m0 : specParamOfMode (specMode (specWord c 0) 0) (specWord c 1) = some p0 := by
        rw [e, ← OpDecoder.param_type_eq_specMode]
        simpa [specWord, show ((c.ip : Int) + 1).toNat = c.ip.toNat + 1 from by omega] using s0
      have m1 : specParamOfMode (specMode (specWord c 0) 1) (specWord c 2) = some p1 := by
        rw [e, ← OpDecoder.param_type_eq_specMode]
        simpa [specWord, show ((c.ip : Int) + 1).toNat = c.ip.toNat + 1 from by omega,
        show c.ip.toNat + 1 + 1 = c.ip.toNat + 2 from by omega] using s1
      try simp [SpecDecode, ho, m0, m1]
      try ring_nf
      try omega
    · have e : specWord c 0 = c.memory.getD c.ip.toNat 0 := by simp [specWord]
      have hoW : OpDecoder.opcode (specWord c 0) = 5 := by
        rw [e]; simpa [OP_JUMP_IF_TRUE] using h5
      rw [hoW]
      norm_num [opArity, OP_HALT, OP_STORE_INPUT, OP_WRITE_OUTPUT,
        OP_ADJUST_RELATIVE_BASE, OP_JUMP_IF_TRUE, OP_JUMP_IF_FALSE]
      try simp
      try ring_nf
      try omega
  rw [if_neg h5] at hdec
  by_cases h6 : OpDecoder.opcode (c.memory.getD c.ip.toNat 0) = OP_JUMP_IF_FALSE
  · rw [if_pos h6] at hdec
    obtain ⟨p0, p1, s0, s1, rfl⟩ :=
      Computer.read_params2_char _ _ Op.JumpIfFalse d (show (0 : Int) ≤ c.ip + 1 by omega) hdec
    refine ⟨rfl, rfl, rfl, rfl, rfl, Op.JumpIfFalse p0 p1, rfl, ?_, ?_⟩
    · have e : specWord c 0 = c.memory.getD c.ip.toNat 0 := by simp [specWord]
      have ho : (specWord c 0).tmod 100 = 6 := by
        rw [e, ← OpDecoder.opcode_eq_tmod]
        simpa [OP_JUMP_IF_FALSE] using h6
      have m0 : specParamOfMode (specMode (specWord c 0) 0) (specWord c 1) = some p0 := by
        rw [e, ← OpDecoder.param_type_eq_specMode]
        simpa [specWord, show ((c.ip : Int) + 1).toNat = c.ip.toNat + 1 from by omega] using s0
      have m1 : specParamOfMode (specMode (specWord c 0) 1) (specWord c 2) = some p1 := by
        rw [e, ← OpDecoder.param_type_eq_specMode]
        simpa [specWord, show ((c.ip : Int) + 1).toNat = c.ip.toNat + 1 from by omega,
        show c.ip.toNat + 1 + 1 = c.ip.toNat + 2 from by omega] using s1
      try simp [SpecDecode, ho, m0, m1]
      try ring_nf
      try omega
    · have e : specWord c 0 = c.memory.getD c.ip.toNat 0 := by simp [specWord]
      have hoW : OpDecoder.opcode (specWord c 0) = 6 := by
        rw [e]; simpa [OP_JUMP_IF_FALSE] using h6
      rw [hoW]
      norm_num [opArity, OP_HALT, OP_STORE_INPUT, OP_WRITE_OUTPUT,
        OP_ADJUST_RELATIVE_BASE, OP_JUMP_IF_TRUE, OP_JUMP_IF_FALSE]
      try simp
      try ring_nf
      try omega
  rw [if_neg h6] at hdec
  by_cases h7 : OpDecoder.opcode (c.memory.getD c.ip.toNat 0) = OP_LESS_THAN
  · rw [if_pos h7] at hdec
    obtain ⟨p0, p1, p2, s0, s1, s2, rfl⟩ :=
      Computer.read_params3_char _ _ Op.LessThan d (show (0 : Int) ≤ c.ip + 1 by omega) hdec
    refine ⟨rfl, rfl, rfl, rfl, rfl, Op.LessThan p0 p1 p2, rfl, ?_, ?_⟩
    · have e : specWord c 0 = c.memory.getD c.ip.toNat 0 := by simp [specWord]
      have ho : (specWord c 0).tmod 100 = 7 := by
        rw [e, ← OpDecoder.opcode_eq_tmod]
        simpa [OP_LESS_THAN] using h7
      have m0 : specParamOfMode (specMode (specWord c 0) 0) (specWord c 1) = some p0 := by
        rw [e, ← OpDecoder.param_type_eq_specMode]
        simpa [specWord, show ((c.ip : Int) + 1).toNat = c.ip.toNat + 1 from by omega] using s0
      have m1 : specParamOfMode (specMode (specWord c 0) 1) (specWord c 2) = some p1 := by
        rw [e, ← OpDecoder.param_type_eq_specMode]
        simpa [specWord, show ((c.ip : Int) + 1).toNat = c.ip.toNat + 1 from by omega,
        show c.ip.toNat + 1 + 1 = c.ip.toNat + 2 from by omega] using s1
      have m2 : specParamOfMode (specMode (specWord c 0) 2) (specWord c 3) = some p2 := by
        rw [e, ← OpDecoder.param_type_eq_specMode]
        simpa [specWord, show ((c.ip : Int) + 1).toNat = c.ip.toNat + 1 from by omega,
        show c.ip.toNat + 1 + 1 = c.ip.toNat + 2 from by omega,
        show c.ip.toNat + 2 + 1 = c.ip.toNat + 3 from by omega] using s2
      try simp [SpecDecode, ho, m0, m1, m2]
      try ring_nf
      try omega
    · have e : specWord c 0 = c.memory.getD c.ip.toNat 0 := by simp [specWord]
      have hoW : OpDecoder.opcode (specWord c 0) = 7 := by
        rw [e]; simpa [OP_LESS_THAN] using h7
      rw [hoW]
      norm_num [opArity, OP_HALT, OP_STORE_INPUT, OP_WRITE_OUTPUT,
        OP_ADJUST_RELATIVE_BASE, OP_JUMP_IF_TRUE, OP_JUMP_IF_FALSE]
      try simp
      try ring_nf
      try omega
  rw [if_neg h7] at hdec
  by_cases h8 : OpDecoder.opcode (c.memory.getD c.ip.toNat 0) = OP_EQUALS
  · rw [if_pos h8] at hdec
    obtain ⟨p0, p1, p2, s0, s1, s2, rfl⟩ :=
      Computer.read_params3_char _ _ Op.Equals d (show (0 : Int) ≤ c.ip + 1 by omega) hdec
    refine ⟨rfl, rfl, rfl, rfl, rfl, Op.Equals p0 p1 p2, rfl, ?_, ?_⟩
    · have e : specWord c 0 = c.memory.getD c.ip.toNat 0 := by simp [specWord]
      have ho : (specWord c 0).tmod 100 = 8 := by
        rw [e, ← OpDecoder.opcode_eq_tmod]
        simpa [OP_EQUALS] using h8
      have m0 : specParamOfMode (specMode (specWord c 0) 0) (specWord c 1) = some p0 := by
        rw [e, ← OpDecoder.param_type_eq_specMode]
        simpa [specWord, show ((c.ip : Int) + 1).toNat = c.ip.toNat + 1 from by omega] using s0
      have m1 : specParamOfMode (specMode (specWord c 0) 1) (specWord c 2) = some p1 := by
        rw [e, ← OpDecoder.param_type_eq_specMode]
        simpa [specWord, show ((c.ip : Int) + 1).toNat = c.ip.toNat + 1 from by omega,
        show c.ip.toNat + 1 + 1 = c.ip.toNat + 2 from by omega] using s1
      have m2 : specParamOfMode (specMode (specWord c 0) 2) (specWord c 3) = some p2 := by
        rw [e, ← OpDecoder.param_type_eq_specMode]
        simpa [specWord, show ((c.ip : Int) + 1).toNat = c.ip.toNat + 1 from by omega,
        show c.ip.toNat + 1 + 1 = c.ip.toNat + 2 from by omega,
        show c.ip.toNat + 2 + 1 = c.ip.toNat + 3 from by omega] using s2
      try simp [SpecDecode, ho, m0, m1, m2]
      try ring_nf
      try omega
    · have e : specWord c 0 = c.memory.getD c.ip.toNat 0 := by simp [specWord]
      have hoW : OpDecoder.opcode (specWord c 0) = 8 := by
        rw [e]; simpa [OP_EQUALS] using h8
      rw [hoW]
      norm_num [opArity, OP_HALT, OP_STORE_INPUT, OP_WRITE_OUTPUT,
        OP_ADJUST_RELATIVE_BASE, OP_JUMP_IF_TRUE, OP_JUMP_IF_FALSE]
      try simp
      try ring_nf
      try omega
  rw [if_neg h8] at hdec
  by_cases h9 : OpDecoder.opcode (c.memory.getD c.ip.toNat 0) = OP_ADJUST_RELATIVE_BASE
  · rw [if_pos h9] at hdec
    obtain ⟨p0, s0, rfl⟩ :=
      Computer.read_params1_char _ _ Op.AdjustRelativeBase d (show (0 : Int) ≤ c.ip + 1 by omega) hdec
    refine ⟨rfl, rfl, rfl, rfl, rfl, Op.AdjustRelativeBase p0, rfl, ?_, ?_⟩
    · have e : specWord c 0 = c.memory.getD c.ip.toNat 0 := by simp [specWord]
      have ho : (specWord c 0).tmod 100 = 9 := by
        rw [e, ← OpDecoder.opcode_eq_tmod]
        simpa [OP_ADJUST_RELATIVE_BASE] using h9
      have m0 : specParamOfMode (specMode (specWord c 0) 0) (specWord c 1) = some p0 := by
        rw [e, ← OpDecoder.param_type_eq_specMode]
        simpa [specWord, show ((c.ip : Int) + 1).toNat = c.ip.toNat + 1 from by omega] using s0
      try simp [SpecDecode, ho, m0]
      try ring_nf
      try omega
    · have e : specWord c 0 = c.memory.getD c.ip.toNat 0 := by simp [specWord]
      have hoW : OpDecoder.opcode (specWord c 0) = 9 := by
        rw [e]; simpa [OP_ADJUST_RELATIVE_BASE] using h9
      rw [hoW]
      norm_num [opArity, OP_HALT, OP_STORE_INPUT, OP_WRITE_OUTPUT,
        OP_ADJUST_RELATIVE_BASE, OP_JUMP_IF_TRUE, OP_JUMP_IF_FALSE]
      try simp
      try ring_nf
      try omega
  rw [if_neg h9] at hdec
  by_cases h10 : OpDecoder.opcode (c.memory.getD c.ip.toNat 0) = OP_HALT
  · rw [if_pos h10] at hdec
    obtain rfl : ({ c with ip := c.ip + 1, op := some Op.Halt } : Computer) = d := by simpa using hdec
    refine ⟨rfl, rfl, rfl, rfl, rfl, Op.Halt, rfl, ?_, ?_⟩
    · have e : specWord c 0 = c.memory.getD c.ip.toNat 0 := by simp [specWord]
      have ho : (specWord c 0).tmod 100 = 99 := by
        rw [e, ← OpDecoder.opcode_eq_tmod]
        simpa [OP_HALT] using h10
      try simp [SpecDecode, ho]
      try ring_nf
      try omega
    · have e : specWord c 0 = c.memory.getD c.ip.toNat 0 := by simp [specWord]
      have hoW : OpDecoder.opcode (specWord c 0) = 99 := by
        rw [e]; simpa [OP_HALT] using h10
      rw [hoW]
      norm_num [opArity, OP_HALT, OP_STORE_INPUT, OP_WRITE_OUTPUT,
        OP_ADJUST_RELATIVE_BASE, OP_JUMP_IF_TRUE, OP_JUMP_IF_FALSE]
      try simp
      try ring_nf
      try omega
  rw [if_neg h10] at hdec
  exact absurd hdec (by simp)

/-- C2: the decoder extracts `opcode = W tmod 100` and
`mode_i = (W tdiv 10^(i+2)) tmod 10` (absent digits are mode 0 since the
formula is pure arithmetic), consumes exactly arity-many following words
tagged with their modes to build the instruction, advances the
instruction pointer by exactly `1 + arity`, and touches nothing else:
every successful decode agrees with the specification-side decoder. -/
theorem claim2_decoder_refines_spec :
    (∀ w : Int, OpDecoder.opcode w = w.tmod 100) ∧
    (∀ (w : Int) (i : Nat),
      OpDecoder.param_type w i = (w.tdiv ((10 : Int) ^ (i + 2))).tmod 10) ∧
    (∀ (c d : Computer), 0 ≤ c.ip → c.read_next_instruction = .ok d →
      d.memory = c.memory ∧ d.state = c.state ∧ d.inputs = c.inputs ∧
      d.outputs = c.outputs ∧ d.relative_base = c.relative_base ∧
      ∃ o, d.op = some o ∧ SpecDecode c = some (o, d.ip) ∧
        d.ip = c.ip + (1 + (opArity (OpDecoder.opcode (specWord c 0)) : Int))) :=
  ⟨OpDecoder.opcode_eq_tmod, OpDecoder.param_type_eq_specMode, Computer.decode_char⟩

/-- Concrete machine used to witness C2: the spec's worked example word
1002 (multiply, modes position/immediate/position). -/
def c2wMachine : Computer := Computer.new [1002, 4, 3, 4, 33]

/-- The decode result at the C2 witness machine. -/
def c2wDecoded : Computer :=
  { c2wMachine with
    ip := 4
    op := some (.Mul (.Position 4) (.Immediate 3) (.Position 4)) }

/-- Witness for C2 at the word 1002: decoding consumes three words,
builds `Mul(Position 4, Immediate 3, Position 4)` and advances the
instruction pointer to 4, in agreement with the spec-side decoder. -/
theorem claim2_decoder_refines_spec_witness :
    c2wDecoded.memory = c2wMachine.memory ∧
    c2wDecoded.state = c2wMachine.state ∧
    c2wDecoded.inputs = c2wMachine.inputs ∧
    c2wDecoded.outputs = c2wMachine.outputs ∧
    c2wDecoded.relative_base = c2wMachine.relative_base ∧
    ∃ o, c2wDecoded.op = some o ∧
      SpecDecode c2wMachine = some (o, c2wDecoded.ip) ∧
      c2wDecoded.ip = c2wMachine.ip +
        (1 + (opArity (OpDecoder.opcode (specWord c2wMachine 0)) : Int)) :=
  claim2_decoder_refines_spec.2.2 c2wMachine c2wDecoded (by norm_num [Computer.new, c2wMachine]) (by rfl)

/-! ### Frame lemmas for the executor -/

/-- A successful `write` changes only the memory. -/
theorem Computer.write_frame (c : Computer) (p v : Int) (d : Computer)
    (he : c.write p v = .ok d) :
    d.state = c.state ∧ d.ip = c.ip ∧ d.inputs = c.inputs ∧
      d.outputs = c.outputs ∧ d.op = c.op ∧ d.relative_base = c.relative_base := by
  rw [Computer.write] at he
  split at he
  · exact absurd he (by simp)
  · split at he
    · exact absurd he (by simp)
    · obtain rfl : _ = d := by exact (by simpa using he : _ = d)
      exact ⟨rfl, rfl, rfl, rfl, rfl, rfl⟩

/-- A successful `binary_op` changes only the memory. -/
theorem Computer.binary_op_frame (c : Computer) (pa pb pc : Parameter)
    (f : Int → Int → Int) (d : Computer) (he : c.binary_op pa pb pc f = .ok d) :
    d.state = c.state ∧ d.ip = c.ip ∧ d.inputs = c.inputs ∧
      d.outputs = c.outputs ∧ d.op = c.op ∧ d.relative_base = c.relative_base := by
  rw [Computer.binary_op] at he
  rcases e1 : c.deref pa with f1 | a <;> simp only [e1] at he
  · exact absurd he (by simp)
  · rcases e2 : c.deref pb with f2 | b <;> simp only [e2] at he
    · exact absurd he (by simp)
    · cases pc with
      | Position p => exact c.write_frame _ _ d he
      | Relative o => exact c.write_frame _ _ d he
      | Immediate n => exact absurd he (by simp)

/-- A successful `execute` leaves the state equal, or sets it to
`Halted` (halt) or `AwaitingInput` (starved store-input). -/
theorem Computer.execute_state (c d : Computer) (he : c.execute = .ok d) :
    d.state = c.state ∨ d.state = ComputerState.Halted ∨
      d.state = ComputerState.AwaitingInput := by
  rw [Computer.execute] at he
  rcases ho : c.op with - | o <;> simp only [ho] at he
  · exact absurd he (by simp)
  · cases o with
    | Add pa pb pc => exact .inl (c.binary_op_frame pa pb pc _ d he).1
    | Mul pa pb pc => exact .inl (c.binary_op_frame pa pb pc _ d he).1
    | LessThan pa pb pc => exact .inl (c.binary_op_frame pa pb pc _ d he).1
    | Equals pa pb pc => exact .inl (c.binary_op_frame pa pb pc _ d he).1
    | StoreInput pa =>
      simp only [Computer.store_input] at he
      rcases hi : c.inputs with - | ⟨x, rest⟩ <;> simp only [hi] at he
      · obtain rfl : _ = d := by exact (by simpa using he : _ = d)
        exact .inr (.inr rfl)
      · cases pa with
        | Position p => exact .inl (Computer.write_frame _ _ _ d he).1
        | Relative o => exact .inl (Computer.write_frame _ _ _ d he).1
        | Immediate n => exact absurd he (by simp)
    | WriteOutput pa =>
      simp only [Computer.write_output] at he
      rcases e : c.deref pa with f | v <;> simp only [e] at he
      · exact absurd he (by simp)
      · obtain rfl : _ = d := by exact (by simpa using he : _ = d)
        exact .inl rfl
    | JumpIfTrue pa pb =>
      simp only [Computer.jump_if_true] at he
      rcases e : c.deref pa with f | cond <;> simp only [e] at he
      · exact absurd he (by simp)
      · split at he
        · rcases e2 : c.deref pb with f | t <;> simp only [e2] at he
          · exact absurd he (by simp)
          · obtain rfl : _ = d := by exact (by simpa using he : _ = d)
            exact .inl rfl
        · obtain rfl : c = d := by simpa using he
          exact .inl rfl
    | JumpIfFalse pa pb =>
      simp only [Computer.jump_if_false] at he
      rcases e : c.deref pa with f | cond <;> simp only [e] at he
      · exact absurd he (by simp)
      · split at he
        · rcases e2 : c.deref pb with f | t <;> simp only [e2] at he
          · exact absurd he (by simp)
          · obtain rfl : _ = d := by exact (by simpa using he : _ = d)
            exact .inl rfl
        · obtain rfl : c = d := by simpa using he
          exact .inl rfl
    | AdjustRelativeBase pa =>
      simp only [Computer.adjust_relative_base] at he
      rcases e : c.deref pa with f | a <;> simp only [e] at he
      · exact absurd he (by simp)
      · obtain rfl : _ = d := by exact (by simpa using he : _ = d)
        exact .inl rfl
    | Halt =>
      obtain rfl : _ = d := by exact (by simpa using he : _ = d)
      exact .inr (.inl rfl)

/-- A successful decode requires a non-negative instruction pointer. -/
theorem Computer.ip_nonneg_of_decode_ok (c d : Computer)
    (h : c.read_next_instruction = .ok d) : 0 ≤ c.ip := by
  by_contra hneg
  push_neg at hneg
  have hw : c.read_word_and_advance = .error (.negativeAddress c.ip) := by
    simp [Computer.read_word_and_advance, Computer.read, hneg]
  simp [Computer.read_next_instruction, hw] at h

/-! ### C6: the state machine and terminal Halted -/

/-- C6: `start` succeeds only from `Initial` and `resume` only from
`AwaitingInput` (anything else is a fatal fault); no public operation
ever moves a machine out of `Halted`; and from `Running`, one
fetch-execute step only ever lands in `Running`, `Halted`, or
`AwaitingInput` — never back in `Initial`. -/
theorem claim6_state_machine :
    (∀ (c : Computer) (n : Nat), c.state ≠ ComputerState.Initial →
      ∃ f, c.start n = .error f) ∧
    (∀ (c : Computer) (n : Nat), c.state ≠ ComputerState.AwaitingInput →
      ∃ f, c.resume n = .error f) ∧
    (∀ (c : Computer) (n : Nat) (d : Computer), c.start n = .ok d →
      c.state = ComputerState.Initial) ∧
    (∀ (c : Computer) (n : Nat) (d : Computer), c.resume n = .ok d →
      c.state = ComputerState.AwaitingInput) ∧
    (∀ (c : Computer) (n : Nat), c.state = ComputerState.Halted →
      (∃ f, c.start n = .error f) ∧ (∃ f, c.resume n = .error f) ∧
      (∃ f, c.start_or_resume n = .error f)) ∧
    (∀ (c : Computer) (x : Int), (c.buffer_input x).state = c.state) ∧
    (∀ c : Computer, (c.consume_output).2.state = c.state) ∧
    (∀ c : Computer, (c.consume_output_buffer).2.state = c.state) ∧
    (∀ (c : Computer) (p v : Int) (d : Computer), c.write p v = .ok d →
      d.state = c.state) ∧
    (∀ (c d : Computer), c.state = ComputerState.Running → c.step = .ok d →
      d.state = ComputerState.Running ∨ d.state = ComputerState.Halted ∨
        d.state = ComputerState.AwaitingInput) := by
  refine ⟨?_, ?_, ?_, ?_, ?_, fun c x => rfl, ?_, fun c => rfl, ?_, ?_⟩
  · intro c n h
    exact ⟨Fault.assertionFailed, by simp [Computer.start, h]⟩
  · intro c n h
    exact ⟨Fault.assertionFailed, by simp [Computer.resume, h]⟩
  · intro c n d hok
    by_cases h : c.state = ComputerState.Initial
    · exact h
    · simp [Computer.start, h] at hok
  · intro c n d hok
    by_cases h : c.state = ComputerState.AwaitingInput
    · exact h
    · simp [Computer.resume, h] at hok
  · intro c n h
    refine ⟨⟨Fault.assertionFailed, by simp [Computer.start, h]⟩,
      ⟨Fault.assertionFailed, by simp [Computer.resume, h]⟩,
      ⟨Fault.assertionFailed, by simp [Computer.start_or_resume, h]⟩⟩
  · intro c
    cases hc : c.outputs <;> simp [Computer.consume_output, hc]
  · intro c p v d he
    exact (c.write_frame p v d he).1
  · intro c d hs hstep
    rw [Computer.step] at hstep
    rcases e : c.read_next_instruction with f | b <;> simp only [e] at hstep
    · exact absurd hstep (by simp)
    · have hb : b.state = c.state :=
        (Computer.decode_char c b (c.ip_nonneg_of_decode_ok b e) e).2.1
      rcases b.execute_state d hstep with h | h | h
      · exact .inl (h.trans (hb.trans hs))
      · exact .inr (.inl h)
      · exact .inr (.inr h)

/-- A concrete halted machine used to witness C6. -/
def c6wMachine : Computer :=
  { Computer.new [99] with state := ComputerState.Halted }

/-- Witness for C6 at a concrete halted machine: neither `start` nor
`resume` nor `start_or_resume` revives it — all are fatal faults. -/
theorem claim6_state_machine_witness :
    (∃ f, c6wMachine.start 1 = .error f) ∧
    (∃ f, c6wMachine.resume 1 = .error f) ∧
    (∃ f, c6wMachine.start_or_resume 1 = .error f) :=
  claim6_state_machine.2.2.2.2.1 c6wMachine 1 rfl

/-! ### C9: how the instruction pointer moves -/

/-- A successful `execute` leaves the instruction pointer unchanged
unless the loaded instruction is a taken jump, which sets it to the
dereferenced second parameter. -/
theorem Computer.execute_ip (c d : Computer) (he : c.execute = .ok d) :
    d.ip = c.ip ∨ ∃ pa pb t,
      (c.op = some (.JumpIfTrue pa pb) ∨ c.op = some (.JumpIfFalse pa pb)) ∧
      c.deref pb = .ok t ∧ d.ip = t := by
  rw [Computer.execute] at he
  rcases ho : c.op with - | o <;> simp only [ho] at he
  · exact absurd he (by simp)
  · cases o with
    | Add pa pb pc => exact .inl (c.binary_op_frame pa pb pc _ d he).2.1
    | Mul pa pb pc => exact .inl (c.binary_op_frame pa pb pc _ d he).2.1
    | LessThan pa pb pc => exact .inl (c.binary_op_frame pa pb pc _ d he).2.1
    | Equals pa pb pc => exact .inl (c.binary_op_frame pa pb pc _ d he).2.1
    | StoreInput pa =>
      simp only [Computer.store_input] at he
      rcases hi : c.inputs with - | ⟨x, rest⟩ <;> simp only [hi] at he
      · obtain rfl : _ = d := by exact (by simpa using he : _ = d)
        exact .inl rfl
      · cases pa with
        | Position p => exact .inl (Computer.write_frame _ _ _ d he).2.1
        | Relative o => exact .inl (Computer.write_frame _ _ _ d he).2.1
        | Immediate n => exact absurd he (by simp)
    | WriteOutput pa =>
      simp only [Computer.write_output] at he
      rcases e : c.deref pa with f | v <;> simp only [e] at he
      · exact absurd he (by simp)
      · obtain rfl : _ = d := by exact (by simpa using he : _ = d)
        exact .inl rfl
    | JumpIfTrue pa pb =>
      simp only [Computer.jump_if_true] at he
      rcases e : c.deref pa with f | cond <;> simp only [e] at he
      · exact absurd he (by simp)
      · split at he
        · rcases e2 : c.deref pb with f | t <;> simp only [e2] at he
          · exact absurd he (by simp)
          · obtain rfl : _ = d := by exact (by simpa using he : _ = d)
            exact .inr ⟨pa, pb, t, .inl rfl, e2, rfl⟩
        · obtain rfl : c = d := by simpa using he
          exact .inl rfl
    | JumpIfFalse pa pb =>
      simp only [Computer.jump_if_false] at he
      rcases e : c.deref pa with f | cond <;> simp only [e] at he
      · exact absurd he (by simp)
      · split at he
        · rcases e2 : c.deref pb with f | t <;> simp only [e2] at he
          · exact absurd he (by simp)
          · obtain rfl : _ = d := by exact (by simpa using he : _ = d)
            exact .inr ⟨pa, pb, t, .inr rfl, e2, rfl⟩
        · obtain rfl : c = d := by simpa using he
          exact .inl rfl
    | AdjustRelativeBase pa =>
      simp only [Computer.adjust_relative_base] at he
      rcases e : c.deref pa with f | a <;> simp only [e] at he
      · exact absurd he (by simp)
      · obtain rfl : _ = d := by exact (by simpa using he : _ = d)
        exact .inl rfl
    | Halt =>
      obtain rfl : _ = d := by exact (by simpa using he : _ = d)
      exact .inl rfl

/-- A freshly started machine whose first instruction is
`JumpIfTrue(Immediate 1, Immediate 0)` — a backward jump. -/
def c9base : Computer :=
  { Computer.new [1105, 1, 0] with state := ComputerState.Running }

/-- The machine after decoding the jump: the pointer has advanced to 3. -/
def c9decoded : Computer :=
  { c9base with
    ip := 3
    op := some (.JumpIfTrue (.Immediate 1) (.Immediate 0)) }

/-- The machine after executing the jump: the pointer moved back to 0. -/
def c9after : Computer := { c9decoded with ip := 0 }

/-- Counterexample to C9 as stated: on the reachable first fetch-execute
step of the program `[1105, 1, 0]`, the jump modifies the instruction
pointer from 3 back to 0 — a jump modification is not strictly
forward. -/
theorem claim9_ip_advance_cex :
    c9base.read_next_instruction = .ok c9decoded ∧
    c9decoded.execute = .ok c9after ∧
    c9after.ip < c9decoded.ip :=
  ⟨rfl, rfl, by decide⟩

/-- C9 (amended): the instruction pointer is modified only by
word-consuming decode advancement — each consumed word advances it by
exactly one, and a whole decode advances it strictly forward — and by
the jump operations, which set it to the dereferenced jump target
(possibly backward); no other operation touches it, and the caller
never touches it directly. -/
theorem claim9_ip_advance_amended :
    (∀ (c : Computer) (w : Int) (d : Computer),
      c.read_word_and_advance = .ok (w, d) → d.ip = c.ip + 1) ∧
    (∀ (c d : Computer), c.read_next_instruction = .ok d → c.ip < d.ip) ∧
    (∀ (c d : Computer), c.execute = .ok d →
      d.ip = c.ip ∨ ∃ pa pb t,
        (c.op = some (.JumpIfTrue pa pb) ∨ c.op = some (.JumpIfFalse pa pb)) ∧
        c.deref pb = .ok t ∧ d.ip = t) := by
  refine ⟨?_, ?_, Computer.execute_ip⟩
  · intro c w d he
    rw [Computer.read_word_and_advance] at he
    rcases e : c.read c.ip with f | v <;> simp only [e] at he
    · exact absurd he (by simp)
    · obtain ⟨rfl, rfl⟩ : v = w ∧ ({ c with ip := c.ip + 1 } : Computer) = d := by
        simpa using he
      rfl
  · intro c d hdec
    have hip := c.ip_nonneg_of_decode_ok d hdec
    have hchar := (Computer.decode_char c d hip hdec).2.2.2.2.2
    obtain ⟨o, -, -, hipd⟩ := hchar
    rw [hipd]
    have : (0 : Int) ≤ (opArity (OpDecoder.opcode (specWord c 0)) : Int) := by
      positivity
    omega

/-- Witness for the amended C9 at the concrete decoded jump machine:
executing the jump either keeps the pointer or sets it to the
dereferenced target. -/
theorem claim9_ip_advance_amended_witness :
    c9after.ip = c9decoded.ip ∨ ∃ pa pb t,
      (c9decoded.op = some (.JumpIfTrue pa pb) ∨
        c9decoded.op = some (.JumpIfFalse pa pb)) ∧
      c9decoded.deref pb = .ok t ∧ c9after.ip = t :=
  claim9_ip_advance_amended.2.2 c9decoded c9after rfl

/-! ### Input-extension simulation lemmas

Appending extra input to the back of the queue does not disturb any
operation except a starved store-input: each lemma transports a
successful step of the shorter-input machine to the extended machine. -/

/-- Dereferencing ignores the input queue. -/
theorem Computer.deref_addInputs (c : Computer) (ys : List Int) (pa : Parameter) :
    (c.addInputs ys).deref pa = c.deref pa := by
  cases pa <;> rfl

/-- A successful write transports to the input-extended machine. -/
theorem Computer.write_addInputs (c : Computer) (ys : List Int) (p v : Int)
    (d : Computer) (he : c.write p v = .ok d) :
    (c.addInputs ys).write p v = .ok (d.addInputs ys) := by
  rw [Computer.write] at he ⊢
  by_cases h1 : p < 0
  · simp [h1] at he
  rw [if_neg h1] at he ⊢
  by_cases h2 : c.memory.length = 0
  · simp [h2] at he
  rw [if_neg (show ¬((c.addInputs ys).memory.length = 0) from h2)] at *
  rw [if_neg h2] at he
  obtain rfl : _ = d := by exact (by simpa using he : _ = d)
  rfl

/-- A successful `binary_op` transports to the input-extended machine. -/
theorem Computer.binary_op_addInputs (c : Computer) (ys : List Int)
    (pa pb pc : Parameter) (f : Int → Int → Int) (d : Computer)
    (he : c.binary_op pa pb pc f = .ok d) :
    (c.addInputs ys).binary_op pa pb pc f = .ok (d.addInputs ys) := by
  rw [Computer.binary_op] at he ⊢
  rw [Computer.deref_addInputs, Computer.deref_addInputs]
  rcases ea : c.deref pa with f1 | a <;> simp only [ea] at he ⊢
  · exact absurd he (by simp)
  · rcases eb : c.deref pb with f2 | b <;> simp only [eb] at he ⊢
    · exact absurd he (by simp)
    · cases pc with
      | Position p => exact c.write_addInputs ys _ _ d he
      | Relative o => exact c.write_addInputs ys _ _ d he
      | Immediate n => exact absurd he (by simp)

/-- A successful `write_output` transports to the input-extended machine. -/
theorem Computer.write_output_addInputs (c : Computer) (ys : List Int)
    (pa : Parameter) (d : Computer) (he : c.write_output pa = .ok d) :
    (c.addInputs ys).write_output pa = .ok (d.addInputs ys) := by
  simp only [Computer.write_output, Computer.deref_addInputs] at he ⊢
  rcases e : c.deref pa with f | v <;> simp only [e] at he ⊢
  · exact absurd he (by simp)
  · obtain rfl : _ = d := by exact (by simpa using he : _ = d)
    rfl

/-- A successful `adjust_relative_base` transports to the input-extended
machine. -/
theorem Computer.adjust_relative_base_addInputs (c : Computer) (ys : List Int)
    (pa : Parameter) (d : Computer) (he : c.adjust_relative_base pa = .ok d) :
    (c.addInputs ys).adjust_relative_base pa = .ok (d.addInputs ys) := by
  simp only [Computer.adjust_relative_base, Computer.deref_addInputs] at he ⊢
  rcases e : c.deref pa with f | a <;> simp only [e] at he ⊢
  · exact absurd he (by simp)
  · obtain rfl : _ = d := by exact (by simpa using he : _ = d)
    rfl

/-- A successful `jump_if_true` transports to the input-extended machine. -/
theorem Computer.jump_if_true_addInputs (c : Computer) (ys : List Int)
    (pa pb : Parameter) (d : Computer) (he : c.jump_if_true pa pb = .ok d) :
    (c.addInputs ys).jump_if_true pa pb = .ok (d.addInputs ys) := by
  simp only [Computer.jump_if_true, Computer.deref_addInputs] at he ⊢
  rcases e : c.deref pa with f | cond <;> simp only [e] at he ⊢
  · exact absurd he (by simp)
  · split at he <;> rename_i hcond
    · rw [if_pos hcond]
      rcases e2 : c.deref pb with f | t <;> simp only [e2] at he ⊢
      · exact absurd he (by simp)
      · obtain rfl : _ = d := by exact (by simpa using he : _ = d)
        rfl
    · rw [if_neg hcond]
      obtain rfl : c = d := by simpa using he
      rfl

/-- A successful `jump_if_false` transports to the input-extended machine. -/
theorem Computer.jump_if_false_addInputs (c : Computer) (ys : List Int)
    (pa pb : Parameter) (d : Computer) (he : c.jump_if_false pa pb = .ok d) :
    (c.addInputs ys).jump_if_false pa pb = .ok (d.addInputs ys) := by
  simp only [Computer.jump_if_false, Computer.deref_addInputs] at he ⊢
  rcases e : c.deref pa with f | cond <;> simp only [e] at he ⊢
  · exact absurd he (by simp)
  · split at he <;> rename_i hcond
    · rw [if_pos hcond]
      rcases e2 : c.deref pb with f | t <;> simp only [e2] at he ⊢
      · exact absurd he (by simp)
      · obtain rfl : _ = d := by exact (by simpa using he : _ = d)
        rfl
    · rw [if_neg hcond]
      obtain rfl : c = d := by simpa using he
      rfl

/-- A successful non-starved `store_input` transports to the
input-extended machine: the same front value is popped. -/
theorem Computer.store_input_addInputs (c : Computer) (ys : List Int)
    (pa : Parameter) (d : Computer) (he : c.store_input pa = .ok d)
    (hne : c.inputs ≠ []) :
    (c.addInputs ys).store_input pa = .ok (d.addInputs ys) := by
  rcases hi : c.inputs with - | ⟨x, rest⟩
  · exact absurd hi hne
  · simp only [Computer.store_input, hi] at he
    have hix : (c.addInputs ys).inputs = x :: (rest ++ ys) := by
      simp [Computer.addInputs, hi]
    simp only [Computer.store_input, hix]
    cases pa with
    | Position p =>
      exact Computer.write_addInputs { c with inputs := rest } ys _ _ d he
    | Relative o =>
      exact Computer.write_addInputs { c with inputs := rest } ys _ _ d he
    | Immediate n => exact absurd he (by simp)

/-- A successful, non-starving `execute` transports to the
input-extended machine. -/
theorem Computer.execute_addInputs (c d : Computer) (ys : List Int)
    (he : c.execute = .ok d) (hna : d.state ≠ ComputerState.AwaitingInput) :
    (c.addInputs ys).execute = .ok (d.addInputs ys) := by
  rw [Computer.execute] at he ⊢
  rw [show (c.addInputs ys).op = c.op from rfl]
  rcases ho : c.op with - | o <;> simp only [ho] at he ⊢
  · exact absurd he (by simp)
  · cases o with
    | Add pa pb pc => exact c.binary_op_addInputs ys pa pb pc _ d he
    | Mul pa pb pc => exact c.binary_op_addInputs ys pa pb pc _ d he
    | LessThan pa pb pc => exact c.binary_op_addInputs ys pa pb pc _ d he
    | Equals pa pb pc => exact c.binary_op_addInputs ys pa pb pc _ d he
    | StoreInput pa =>
      rcases hi : c.inputs with - | ⟨x, rest⟩
      · exfalso
        simp only [Computer.store_input, hi] at he
        obtain rfl : _ = d := by exact (by simpa using he : _ = d)
        exact hna rfl
      · exact c.store_input_addInputs ys pa d he (by simp [hi])
    | WriteOutput pa => exact c.write_output_addInputs ys pa d he
    | JumpIfTrue pa pb => exact c.jump_if_true_addInputs ys pa pb d he
    | JumpIfFalse pa pb => exact c.jump_if_false_addInputs ys pa pb d he
    | AdjustRelativeBase pa => exact c.adjust_relative_base_addInputs ys pa d he
    | Halt =>
      obtain rfl : _ = d := by exact (by simpa using he : _ = d)
      rfl

/-- Fetching a word transports to the input-extended machine. -/
theorem Computer.read_word_and_advance_addInputs (c : Computer) (ys : List Int)
    (w : Int) (d : Computer) (he : c.read_word_and_advance = .ok (w, d)) :
    (c.addInputs ys).read_word_and_advance = .ok (w, d.addInputs ys) := by
  rw [Computer.read_word_and_advance] at he ⊢
  rw [show (c.addInputs ys).read (c.addInputs ys).ip = c.read c.ip from rfl]
  rcases e : c.read c.ip with f | v <;> simp only [e] at he ⊢
  · exact absurd he (by simp)
  · obtain ⟨rfl, rfl⟩ : v = w ∧ ({ c with ip := c.ip + 1 } : Computer) = d := by
      simpa using he
    rfl

/-- Reading a parameter transports to the input-extended machine. -/
theorem Computer.read_param_and_advance_addInputs (c : Computer) (ys : List Int)
    (t : Int) (pr : Parameter) (d : Computer)
    (he : c.read_param_and_advance t = .ok (pr, d)) :
    (c.addInputs ys).read_param_and_advance t = .ok (pr, d.addInputs ys) := by
  rw [Computer.read_param_and_advance] at he ⊢
  rcases e : c.read_word_and_advance with f | ⟨v, c1⟩ <;> simp only [e] at he
  · exact absurd he (by simp)
  · simp only [c.read_word_and_advance_addInputs ys v c1 e]
    by_cases h0 : t = PARAM_TYPE_POSITION
    · obtain ⟨rfl, rfl⟩ : Parameter.Position v = pr ∧ c1 = d := by
        simpa [h0, PARAM_TYPE_POSITION, PARAM_TYPE_IMMEDIATE, PARAM_TYPE_RELATIVE] using he
      simp [h0, PARAM_TYPE_POSITION, PARAM_TYPE_IMMEDIATE, PARAM_TYPE_RELATIVE]
    · by_cases h1 : t = PARAM_TYPE_IMMEDIATE
      · obtain ⟨rfl, rfl⟩ : Parameter.Immediate v = pr ∧ c1 = d := by
          simpa [h0, h1, PARAM_TYPE_POSITION, PARAM_TYPE_IMMEDIATE, PARAM_TYPE_RELATIVE] using he
        simp [h0, h1, PARAM_TYPE_POSITION, PARAM_TYPE_IMMEDIATE, PARAM_TYPE_RELATIVE]
      · by_cases h2 : t = PARAM_TYPE_RELATIVE
        · obtain ⟨rfl, rfl⟩ : Parameter.Relative v = pr ∧ c1 = d := by
            simpa [h0, h1, h2, PARAM_TYPE_POSITION, PARAM_TYPE_IMMEDIATE, PARAM_TYPE_RELATIVE] using he
          simp [h0, h1, h2, PARAM_TYPE_POSITION, PARAM_TYPE_IMMEDIATE, PARAM_TYPE_RELATIVE]
        · simp only [PARAM_TYPE_POSITION, PARAM_TYPE_IMMEDIATE, PARAM_TYPE_RELATIVE] at h0 h1 h2
          simp [h0, h1, h2, PARAM_TYPE_POSITION, PARAM_TYPE_IMMEDIATE, PARAM_TYPE_RELATIVE] at he

/-- One-parameter decode body transports to the input-extended machine. -/
theorem Computer.read_params1_addInputs (c : Computer) (ys : List Int) (w : Int)
    (mk : Parameter → Op) (d : Computer) (he : c.read_params1 w mk = .ok d) :
    (c.addInputs ys).read_params1 w mk = .ok (d.addInputs ys) := by
  rw [Computer.read_params1] at he ⊢
  rcases e : c.read_param_and_advance (OpDecoder.param_type w 0) with f | ⟨p0, c1⟩ <;>
    simp only [e] at he
  · exact absurd he (by simp)
  · simp only [c.read_param_and_advance_addInputs ys _ p0 c1 e]
    obtain rfl : _ = d := by exact (by simpa using he : _ = d)
    rfl

/-- Two-parameter decode body transports to the input-extended machine. -/
theorem Computer.read_params2_addInputs (c : Computer) (ys : List Int) (w : Int)
    (mk : Parameter → Parameter → Op) (d : Computer)
    (he : c.read_params2 w mk = .ok d) :
    (c.addInputs ys).read_params2 w mk = .ok (d.addInputs ys) := by
  rw [Computer.read_params2] at he ⊢
  rcases e : c.read_param_and_advance (OpDecoder.param_type w 0) with f | ⟨p0, c1⟩ <;>
    simp only [e] at he
  · exact absurd he (by simp)
  · simp only [c.read_param_and_advance_addInputs ys _ p0 c1 e]
    rcases e1 : c1.read_param_and_advance (OpDecoder.param_type w 1) with f | ⟨p1, c2⟩ <;>
      simp only [e1] at he
    · exact absurd he (by simp)
    · simp only [c1.read_param_and_advance_addInputs ys _ p1 c2 e1]
      obtain rfl : _ = d := by exact (by simpa using he : _ = d)
      rfl

/-- Three-parameter decode body transports to the input-extended machine. -/
theorem Computer.read_params3_addInputs (c : Computer) (ys : List Int) (w : Int)
    (mk : Parameter → Parameter → Parameter → Op) (d : Computer)
    (he : c.read_params3 w mk = .ok d) :
    (c.addInputs ys).read_params3 w mk = .ok (d.addInputs ys) := by
  rw [Computer.read_params3] at he ⊢
  rcases e : c.read_param_and_advance (OpDecoder.param_type w 0) with f | ⟨p0, c1⟩ <;>
    simp only [e] at he
  · exact absurd he (by simp)
  · simp only [c.read_param_and_advance_addInputs ys _ p0 c1 e]
    rcases e1 : c1.read_param_and_advance (OpDecoder.param_type w 1) with f | ⟨p1, c2⟩ <;>
      simp only [e1] at he
    · exact absurd he (by simp)
    · simp only [c1.read_param_and_advance_addInputs ys _ p1 c2 e1]
      rcases e2 : c2.read_param_and_advance (OpDecoder.param_type w 2) with f | ⟨p2, c3⟩ <;>
        simp only [e2] at he
      · exact absurd he (by simp)
      · simp only [c2.read_param_and_advance_addInputs ys _ p2 c3 e2]
        obtain rfl : _ = d := by exact (by simpa using he : _ = d)
        rfl

/-- A successful decode transports to the input-extended machine. -/
theorem Computer.read_next_instruction_addInputs (c : Computer) (ys : List Int)
    (d : Computer) (he : c.read_next_instruction = .ok d) :
    (c.addInputs ys).read_next_instruction = .ok (d.addInputs ys) := by
  rw [Computer.read_next_instruction] at he ⊢
  rcases e : c.read_word_and_advance with f | ⟨w, c1⟩ <;> simp only [e] at he
  · exact absurd he (by simp)
  · simp only [c.read_word_and_advance_addInputs ys w c1 e]
    by_cases g1 : OpDecoder.opcode w = OP_ADD
    · rw [if_pos g1] at he ⊢; exact c1.read_params3_addInputs ys w _ d he
    rw [if_neg g1] at he ⊢
    by_cases g2 : OpDecoder.opcode w = OP_MUL
    · rw [if_pos g2] at he ⊢; exact c1.read_params3_addInputs ys w _ d he
    rw [if_neg g2] at he ⊢
    by_cases g3 : OpDecoder.opcode w = OP_STORE_INPUT
    · rw [if_pos g3] at he ⊢; exact c1.read_params1_addInputs ys w _ d he
    rw [if_neg g3] at he ⊢
    by_cases g4 : OpDecoder.opcode w = OP_WRITE_OUTPUT
    · rw [if_pos g4] at he ⊢; exact c1.read_params1_addInputs ys w _ d he
    rw [if_neg g4] at he ⊢
    by_cases g5 : OpDecoder.opcode w = OP_JUMP_IF_TRUE
    · rw [if_pos g5] at he ⊢; exact c1.read_params2_addInputs ys w _ d he
    rw [if_neg g5] at he ⊢
    by_cases g6 : OpDecoder.opcode w = OP_JUMP_IF_FALSE
    · rw [if_pos g6] at he ⊢; exact c1.read_params2_addInputs ys w _ d he
    rw [if_neg g6] at he ⊢
    by_cases g7 : OpDecoder.opcode w = OP_LESS_THAN
    · rw [if_pos g7] at he ⊢; exact c1.read_params3_addInputs ys w _ d he
    rw [if_neg g7] at he ⊢
    by_cases g8 : OpDecoder.opcode w = OP_EQUALS
    · rw [if_pos g8] at he ⊢; exact c1.read_params3_addInputs ys w _ d he
    rw [if_neg g8] at he ⊢
    by_cases g9 : OpDecoder.opcode w = OP_ADJUST_RELATIVE_BASE
    · rw [if_pos g9] at he ⊢; exact c1.read_params1_addInputs ys w _ d he
    rw [if_neg g9] at he ⊢
    by_cases g10 : OpDecoder.opcode w = OP_HALT
    · rw [if_pos g10] at he ⊢
      obtain rfl : _ = d := by exact (by simpa using he : _ = d)
      rfl
    · rw [if_neg g10] at he
      exact absurd he (by simp)

/-- A successful, non-starving fetch-execute step transports to the
input-extended machine. -/
theorem Computer.step_addInputs (c d : Computer) (ys : List Int)
    (hstep : c.step = .ok d) (hna : d.state ≠ ComputerState.AwaitingInput) :
    (c.addInputs ys).step = .ok (d.addInputs ys) := by
  rw [Computer.step] at hstep ⊢
  rcases e : c.read_next_instruction with f | b <;> simp only [e] at hstep
  · exact absurd hstep (by simp)
  · simp only [c.read_next_instruction_addInputs ys b e]
    exact Computer.execute_addInputs b d ys hstep hna

/-- The only way a running machine's `execute` lands in `AwaitingInput`
is a store-input with an empty input queue, and then nothing else
changes. -/
theorem Computer.execute_starve (c d : Computer) (he : c.execute = .ok d)
    (hs : c.state = ComputerState.Running)
    (hd : d.state = ComputerState.AwaitingInput) :
    ∃ pa, c.op = some (.StoreInput pa) ∧ c.inputs = [] ∧
      d = { c with state := ComputerState.AwaitingInput } := by
  rw [Computer.execute] at he
  rcases ho : c.op with - | o <;> simp only [ho] at he ⊢
  · exact absurd he (by simp)
  · cases o with
    | Add pa pb pc =>
      rw [(c.binary_op_frame pa pb pc _ d he).1, hs] at hd; exact absurd hd (by simp)
    | Mul pa pb pc =>
      rw [(c.binary_op_frame pa pb pc _ d he).1, hs] at hd; exact absurd hd (by simp)
    | LessThan pa pb pc =>
      rw [(c.binary_op_frame pa pb pc _ d he).1, hs] at hd; exact absurd hd (by simp)
    | Equals pa pb pc =>
      rw [(c.binary_op_frame pa pb pc _ d he).1, hs] at hd; exact absurd hd (by simp)
    | StoreInput pa =>
      simp only [Computer.store_input] at he
      rcases hi : c.inputs with - | ⟨x, rest⟩ <;> simp only [hi] at he ⊢
      · obtain rfl : _ = d := by exact (by simpa using he : _ = d)
        exact ⟨pa, rfl, trivial, by rw [ho]⟩
      · cases pa with
        | Position p =>
          rw [(Computer.write_frame _ _ _ d he).1, hs] at hd
          exact absurd hd (by simp)
        | Relative o =>
          rw [(Computer.write_frame _ _ _ d he).1, hs] at hd
          exact absurd hd (by simp)
        | Immediate n => exact absurd he (by simp)
    | WriteOutput pa =>
      simp only [Computer.write_output] at he
      rcases e : c.deref pa with f | v <;> simp only [e] at he
      · exact absurd he (by simp)
      · obtain rfl : _ = d := by exact (by simpa using he : _ = d)
        rw [show ({ c with outputs := c.outputs ++ [v] } : Computer).state = c.state
          from rfl, hs] at hd
        exact absurd hd (by simp)
    | JumpIfTrue pa pb =>
      have := c.execute_state d (by rw [Computer.execute, ho]; exact he)
      rcases this with h | h | h
      · rw [h, hs] at hd; exact absurd hd (by simp)
      · rw [h] at hd; exact absurd hd (by simp)
      · exfalso
        simp only [Computer.jump_if_true] at he
        rcases e : c.deref pa with f | cond <;> simp only [e] at he
        · exact absurd he (by simp)
        · split at he
          · rcases e2 : c.deref pb with f | t <;> simp only [e2] at he
            · exact absurd he (by simp)
            · obtain rfl : _ = d := by exact (by simpa using he : _ = d)
              rw [show ({ c with ip := t } : Computer).state = c.state from rfl,
                hs] at hd
              exact absurd hd (by simp)
          · obtain rfl : c = d := by simpa using he
            rw [hs] at hd; exact absurd hd (by simp)
    | JumpIfFalse pa pb =>
      exfalso
      simp only [Computer.jump_if_false] at he
      rcases e : c.deref pa with f | cond <;> simp only [e] at he
      · exact absurd he (by simp)
      · split at he
        · rcases e2 : c.deref pb with f | t <;> simp only [e2] at he
          · exact absurd he (by simp)
          · obtain rfl : _ = d := by exact (by simpa using he : _ = d)
            rw [show ({ c with ip := t } : Computer).state = c.state from rfl,
              hs] at hd
            exact absurd hd (by simp)
        · obtain rfl : c = d := by simpa using he
          rw [hs] at hd; exact absurd hd (by simp)
    | AdjustRelativeBase pa =>
      simp only [Computer.adjust_relative_base] at he
      rcases e : c.deref pa with f | a <;> simp only [e] at he
      · exact absurd he (by simp)
      · obtain rfl : _ = d := by exact (by simpa using he : _ = d)
        rw [show ({ c with relative_base := c.relative_base + a } : Computer).state
          = c.state from rfl, hs] at hd
        exact absurd hd (by simp)
    | Halt =>
      obtain rfl : _ = d := by exact (by simpa using he : _ = d)
      exact absurd hd (by simp)

/-- Updating a field to the value it already has is the identity. -/
theorem Computer.update_state_self (c : Computer) (s : ComputerState)
    (h : c.state = s) : ({ c with state := s } : Computer) = c := by
  cases c
  cases h
  rfl

/-- Eliminator for a successful `resume`: the preconditions held and the
run was the re-executed pending instruction followed by the loop. -/
theorem Computer.resume_ok_elim (c : Computer) (m : Nat) (c₂ : Computer)
    (hr : c.resume m = .ok c₂) :
    c.state = ComputerState.AwaitingInput ∧ c.inputs ≠ [] ∧
    ∃ e, ({ c with state := ComputerState.Running }).execute = .ok e ∧
      e.compute m = .ok c₂ := by
  rw [Computer.resume] at hr
  split at hr <;> rename_i h1
  · split at hr <;> rename_i h2
    · rcases eex : ({ c with state := ComputerState.Running }).execute with f | e <;>
        simp only [eex] at hr
      · exact absurd hr (by simp)
      · exact ⟨h1, fun hnil => h2 (by simp [hnil]), e, eex, hr⟩
    · exact absurd hr (by simp)
  · exact absurd hr (by simp)

/-- Eliminator for a successful `start`: the preconditions held and the
run was the loop from the `Running` state. -/
theorem Computer.start_ok_elim (c : Computer) (n : Nat) (d : Computer)
    (h : c.start n = .ok d) :
    c.state = ComputerState.Initial ∧ c.ip = 0 ∧
      ({ c with state := ComputerState.Running }).compute n = .ok d := by
  rw [Computer.start] at h
  split at h <;> rename_i h1
  · split at h <;> rename_i h2
    · exact ⟨h1, h2, h⟩
    · exact absurd h (by simp)
  · exact absurd h (by simp)

/-- Buffering a list of inputs appends it to the back of the queue. -/
theorem Computer.bufferAll_eq_addInputs (c : Computer) (xs : List Int) :
    c.bufferAll xs = c.addInputs xs := by
  induction xs generalizing c with
  | nil =>
    cases c
    simp [Computer.bufferAll, Computer.addInputs]
  | cons x xs ih =>
    rw [show Computer.bufferAll c (x :: xs) =
      Computer.bufferAll (c.buffer_input x) xs from rfl, ih]
    simp [Computer.buffer_input, Computer.addInputs]

/-- The split-run replay lemma: if a running machine starves after some
fuel, and resuming the starved machine with extra input `ys` reaches
`c₂`, then the same machine started with the extra input already
buffered reaches exactly `c₂`. -/
theorem Computer.compute_split : ∀ (n : Nat) (c c₁ : Computer) (ys : List Int)
    (m : Nat) (c₂ : Computer),
    c.state = ComputerState.Running →
    c.compute n = .ok c₁ → c₁.state = ComputerState.AwaitingInput →
    (c₁.addInputs ys).resume m = .ok c₂ →
    ∃ k, (c.addInputs ys).compute k = .ok c₂ := by
  intro n
  induction n with
  | zero =>
    intro c c₁ ys m c₂ hs hc h1 hr
    obtain rfl : c = c₁ := by simpa [Computer.compute] using hc
    rw [hs] at h1
    exact absurd h1 (by simp)
  | succ n ih =>
    intro c c₁ ys m c₂ hs hc h1 hr
    rw [Computer.compute_succ_of_running c n hs] at hc
    rcases e : c.step with f | d <;> simp only [e] at hc
    · exact absurd hc (by simp)
    · cases hd : d.state with
      | Initial =>
        obtain rfl : d = c₁ := by
          rw [d.compute_of_not_running n (by simp [hd])] at hc
          exact (by simpa using hc)
        rw [hd] at h1
        exact absurd h1 (by simp)
      | Running =>
        obtain ⟨k, hk⟩ := ih d c₁ ys m c₂ hd hc h1 hr
        refine ⟨k + 1, ?_⟩
        rw [Computer.compute_succ_of_running _ k
          (show (c.addInputs ys).state = ComputerState.Running from hs)]
        rw [Computer.step_addInputs c d ys e (by simp [hd])]
        exact hk
      | Halted =>
        obtain rfl : d = c₁ := by
          rw [d.compute_of_not_running n (by simp [hd])] at hc
          exact (by simpa using hc)
        rw [hd] at h1
        exact absurd h1 (by simp)
      | AwaitingInput =>
        obtain rfl : d = c₁ := by
          rw [d.compute_of_not_running n (by simp [hd])] at hc
          exact (by simpa using hc)
        rw [Computer.step] at e
        rcases edec : c.read_next_instruction with f | b <;> simp only [edec] at e
        · exact absurd e (by simp)
        · have hbstate : b.state = c.state :=
            (Computer.decode_char c b (c.ip_nonneg_of_decode_ok b edec) edec).2.1
          obtain ⟨pa, hbop, hbin, rfl⟩ :=
            b.execute_starve d e (hbstate.trans hs) hd
          obtain ⟨-, -, e2, hex2, hcomp2⟩ :=
            Computer.resume_ok_elim _ m c₂ hr
          have hbM : (b.addInputs ys).execute = .ok e2 := by
            have h1eq := Computer.update_state_self (b.addInputs ys)
              ComputerState.Running (hbstate.trans hs)
            rw [← h1eq]
            exact hex2
          refine ⟨m + 1, ?_⟩
          rw [Computer.compute_succ_of_running _ m
            (show (c.addInputs ys).state = ComputerState.Running from hs)]
          have hstep_ext : (c.addInputs ys).step = .ok e2 := by
            rw [Computer.step]
            simp only [c.read_next_instruction_addInputs ys b edec]
            exact hbM
          rw [hstep_ext]
          exact hcomp2

/-! ### C4: splitting input delivery across suspend points -/

/-- C4: splitting input delivery across suspend points does not change
the result.  First part: a run started with a prefix of the input that
blocks in `AwaitingInput` and is then resumed with the rest reaches
exactly the state the one-shot pre-buffered run reaches (so final
memory, outputs, and the `Halted` state agree).  Second part: the same
replay holds from one suspension to the next, so any chain of
buffer/resume segments collapses to a single pre-buffered run.  The
resumption re-executes the pending already-decoded `StoreInput` without
re-decoding it, as `resume`'s definition shows. -/
theorem claim4_split_input_delivery :
    (∀ (mem xs ys : List Int) (n m : Nat) (c₁ c₂ : Computer),
      ((Computer.new mem).bufferAll xs).start n = .ok c₁ →
      c₁.state = ComputerState.AwaitingInput →
      (c₁.bufferAll ys).resume m = .ok c₂ →
      c₂.state = ComputerState.Halted →
      ∃ k, ((Computer.new mem).bufferAll (xs ++ ys)).start k = .ok c₂) ∧
    (∀ (d : Computer) (ys : List Int) (n m : Nat) (c₁ c₂ : Computer),
      d.resume n = .ok c₁ →
      c₁.state = ComputerState.AwaitingInput →
      (c₁.bufferAll ys).resume m = .ok c₂ →
      c₂.state = ComputerState.Halted →
      ∃ k, (d.bufferAll ys).resume k = .ok c₂) := by
  constructor
  · intro mem xs ys n m c₁ c₂ h1 h2 h3 _h4
    rw [Computer.bufferAll_eq_addInputs] at h1
    obtain ⟨-, -, hcomp⟩ := Computer.start_ok_elim _ n c₁ h1
    obtain ⟨k, hk⟩ := Computer.compute_split n _ c₁ ys m c₂ rfl hcomp h2
      (by rw [← Computer.bufferAll_eq_addInputs]; exact h3)
    refine ⟨k, ?_⟩
    rw [Computer.bufferAll_eq_addInputs, Computer.start,
      if_pos (show ((Computer.new mem).addInputs (xs ++ ys)).state =
        ComputerState.Initial from rfl),
      if_pos (show ((Computer.new mem).addInputs (xs ++ ys)).ip = 0 from rfl)]
    exact hk
  · intro d ys n m c₁ c₂ h1 h2 h3 _h4
    obtain ⟨hst, hdne, e, hex, hcomp⟩ := Computer.resume_ok_elim d n c₁ h1
    have hena : e.state ≠ ComputerState.AwaitingInput := by
      intro hA
      obtain ⟨pa, -, hin, -⟩ := Computer.execute_starve _ e hex rfl hA
      exact hdne hin
    have hexExt : (({ d with state := ComputerState.Running }).addInputs ys).execute
        = .ok (e.addInputs ys) := Computer.execute_addInputs _ e ys hex hena
    rcases Computer.execute_state _ e hex with hS | hS | hS
    · have heR : e.state = ComputerState.Running := hS
      obtain ⟨k, hk⟩ := Computer.compute_split n e c₁ ys m c₂ heR hcomp h2
        (by rw [← Computer.bufferAll_eq_addInputs]; exact h3)
      have hlen : ((d.addInputs ys).inputs).length ≠ 0 := by
        have h0 : d.inputs.length ≠ 0 := fun h => hdne (List.length_eq_zero.mp h)
        show (d.inputs ++ ys).length ≠ 0
        rw [List.length_append]
        omega
      refine ⟨k, ?_⟩
      rw [Computer.bufferAll_eq_addInputs, Computer.resume,
        if_pos (show (d.addInputs ys).state = ComputerState.AwaitingInput from hst),
        if_pos hlen]
      have hmach : ({ (d.addInputs ys) with state := ComputerState.Running } : Computer)
          = ({ d with state := ComputerState.Running }).addInputs ys := rfl
      rw [hmach]
      simp only [hexExt]
      exact hk
    · exfalso
      have hfin : e.compute n = .ok e := e.compute_of_not_running n (by simp [hS])
      rw [hfin] at hcomp
      obtain rfl : e = c₁ := by simpa using hcomp
      rw [hS] at h2
      exact absurd h2 (by simp)
    · exact absurd hS hena

/-- The C4 witness program: store one input to address 0, store another
to address 1, halt. -/
def c4wProgram : List Int := [3, 0, 3, 1, 99]

/-- The C4 witness machine after the first run segment: one input
consumed, blocked in `AwaitingInput` on the second store-input, whose
decoded form is still loaded. -/
def c4wMid : Computer :=
  { memory := [7, 0, 3, 1, 99]
    ip := 4
    state := ComputerState.AwaitingInput
    inputs := []
    outputs := []
    op := some (.StoreInput (.Position 1))
    relative_base := 0 }

/-- The C4 witness machine after resumption: both inputs stored, halted. -/
def c4wFinal : Computer :=
  { memory := [7, 8, 3, 1, 99]
    ip := 5
    state := ComputerState.Halted
    inputs := []
    outputs := []
    op := some Op.Halt
    relative_base := 0 }

/-- Witness for C4 at the concrete program `[3,0,3,1,99]`: buffering 7,
starting, blocking, buffering 8 and resuming reaches the same final
machine as the one-shot run with both inputs pre-buffered. -/
theorem claim4_split_input_delivery_witness :
    ∃ k, ((Computer.new c4wProgram).bufferAll ([7] ++ [8])).start k = .ok c4wFinal :=
  claim4_split_input_delivery.1 c4wProgram [7] [8] 3 2 c4wMid c4wFinal
    rfl rfl rfl rfl
